import Mathlib

/-!
# IMDbStream — verification of the classification / caching / query pipeline

Shallow embedding of the IMDbStream server (main server file, `lib/classifier.mjs`,
`lib/prefetch.js`, `visibility-gate.mjs`).  JavaScript strings are modelled as Lean
`String`/`List Char` (lower-casing is modelled on ASCII, which covers every string
the code compares), JavaScript numbers that the code uses integrally are modelled
as `Int`/`Nat`, fallible operations return `Option`/`Except`, and the process-wide
in-memory cache (`mem` Map) is modelled as an explicit association list threaded
through the functions that mutate it.  External HTTP calls (Cinemeta, IMDb pages)
are modelled as environment functions passed in as parameters.
-/

/-! ## JavaScript string primitives -/

/-- `String.prototype.toLowerCase` on a character list (ASCII case mapping). -/
def jsLowerL (cs : List Char) : List Char := cs.map Char.toLower

/-- `String.prototype.toLowerCase` on a string. -/
def jsLowerS (s : String) : String := ⟨jsLowerL s.data⟩

/-- `String.prototype.trim`: strip leading and trailing whitespace. -/
def trimL (cs : List Char) : List Char :=
  ((cs.dropWhile Char.isWhitespace).reverse.dropWhile Char.isWhitespace).reverse

/-- `String.prototype.trim` on a string. -/
def trimS (s : String) : String := ⟨trimL s.data⟩

/-- `haystack.includes(needle)` — substring containment on character lists. -/
def jsIncludesL (needle : List Char) : List Char → Bool
  | [] => needle.isEmpty
  | c :: cs => needle.isPrefixOf (c :: cs) || jsIncludesL needle cs

/-- `haystack.includes(needle)` on strings. -/
def jsIncludesS (hay needle : String) : Bool := jsIncludesL needle.data hay.data

/-- Three-way character comparison (sign of the JS code-unit comparison). -/
def chCmp (a b : Char) : Int := if a < b then -1 else if b < a then 1 else 0

/-- Three-way lexicographic comparison of character lists: the sign of the JS
`<`/`>` comparison of strings (code-unit order; shorter prefix sorts first). -/
def lcCmp : List Char → List Char → Int
  | [], [] => 0
  | [], _ :: _ => -1
  | _ :: _, [] => 1
  | a :: as, b :: bs => if chCmp a b = 0 then lcCmp as bs else chCmp a b

theorem chCmp_neg (a b : Char) : chCmp a b = -(chCmp b a) := by
  unfold chCmp
  rcases lt_trichotomy a b with h | h | h
  · simp [h, not_lt.mpr (le_of_lt h), lt_irrefl]
  · simp [h, lt_irrefl]
  · simp [h, not_lt.mpr (le_of_lt h), lt_irrefl]

theorem chCmp_eq_zero_iff (a b : Char) : chCmp a b = 0 ↔ a = b := by
  unfold chCmp
  rcases lt_trichotomy a b with h | h | h
  · simp only [h, if_true]
    constructor
    · intro hc; omega
    · intro he; exact absurd he (ne_of_lt h)
  · simp [h, lt_irrefl]
  · have hba : ¬ a < b := not_lt.mpr (le_of_lt h)
    simp only [hba, if_false, h, if_true]
    constructor
    · intro hc; omega
    · intro he; exact absurd he (ne_of_gt h)

theorem chCmp_self (a : Char) : chCmp a a = 0 := by
  unfold chCmp; simp [lt_irrefl]

theorem chCmp_lt_iff (a b : Char) : chCmp a b < 0 ↔ a < b := by
  unfold chCmp
  rcases lt_trichotomy a b with h | h | h
  · simp [h]
  · simp [h, lt_irrefl]
  · have hba : ¬ a < b := not_lt.mpr (le_of_lt h)
    simp [hba, h]

theorem lcCmp_neg : ∀ s t : List Char, lcCmp s t = -(lcCmp t s)
  | [], [] => by simp [lcCmp]
  | [], _ :: _ => by simp [lcCmp]
  | _ :: _, [] => by simp [lcCmp]
  | a :: as, b :: bs => by
    simp only [lcCmp]
    by_cases h : chCmp a b = 0
    · have h' : chCmp b a = 0 := by rw [chCmp_neg] at h; omega
      simp [h, h', lcCmp_neg as bs]
    · have h' : ¬ chCmp b a = 0 := by rw [chCmp_neg b a]; omega
      simp [h, h', chCmp_neg a b]

theorem lcCmp_eq_zero_iff : ∀ s t : List Char, lcCmp s t = 0 ↔ s = t
  | [], [] => by simp [lcCmp]
  | [], c :: cs => by simp [lcCmp]
  | c :: cs, [] => by simp [lcCmp]
  | a :: as, b :: bs => by
    simp only [lcCmp]
    by_cases h : chCmp a b = 0
    · have hab : a = b := (chCmp_eq_zero_iff a b).mp h
      subst hab
      simp only [chCmp_self, if_true, lcCmp_eq_zero_iff as bs]
      simp
    · have hab : ¬ a = b := fun he => h ((chCmp_eq_zero_iff a b).mpr he)
      simp [h, hab]

theorem lcCmp_nil_nonpos (u : List Char) : lcCmp [] u ≤ 0 := by
  cases u <;> simp [lcCmp]

theorem lcCmp_trans_nonpos :
    ∀ s t u : List Char, lcCmp s t ≤ 0 → lcCmp t u ≤ 0 → lcCmp s u ≤ 0
  | [], _, u, _, _ => lcCmp_nil_nonpos u
  | _ :: _, [], _, h1, _ => by simp [lcCmp] at h1
  | _ :: _, _ :: _, [], _, h2 => by simp [lcCmp] at h2
  | a :: as, b :: bs, c :: cs, h1, h2 => by
    simp only [lcCmp] at h1 h2 ⊢
    by_cases hab : chCmp a b = 0
    · have hab' : a = b := (chCmp_eq_zero_iff a b).mp hab
      subst hab'
      by_cases hac : chCmp a c = 0
      · have hac' : a = c := (chCmp_eq_zero_iff a c).mp hac
        subst hac'
        simp only [hab, if_true] at h1 h2 ⊢
        exact lcCmp_trans_nonpos as bs cs h1 h2
      · simp only [hab, if_true] at h1
        simp only [hac, if_false] at h2 ⊢
        exact h2
    · by_cases hbc : chCmp b c = 0
      · have hbc' : b = c := (chCmp_eq_zero_iff b c).mp hbc
        subst hbc'
        simp only [hab, if_false] at h1 ⊢
        exact h1
      · simp only [hab, if_false] at h1
        simp only [hbc, if_false] at h2
        have h1' : a < b := (chCmp_lt_iff a b).mp (by omega)
        have h2' : b < c := (chCmp_lt_iff b c).mp (by omega)
        have h3 : a < c := lt_trans h1' h2'
        have h4 : chCmp a c < 0 := (chCmp_lt_iff a c).mpr h3
        have h5 : ¬ chCmp a c = 0 := by omega
        simp only [h5, if_false]
        omega

/-- The sub-list of `lcCmp` facts needed by the sort machinery, bundled:
`lcCmp` is antisymmetric in sign and transitively non-positive. -/
theorem lcCmp_self (s : List Char) : lcCmp s s = 0 := (lcCmp_eq_zero_iff s s).mpr rfl

example : jsLowerS "AbC" = "abc" := by decide
example : trimS "  x y  " = "x y" := by decide
example : jsIncludesS "hello world" "lo wo" = true := by decide
example : lcCmp "Apple".data "apple".data < 0 := by decide

/-! ## Index annotation (`arr.map((m,i) => [m,i])`) -/

/-- Annotate each element with its position, starting at `n`. -/
def withIdxFrom {α : Type} (n : Nat) : List α → List (α × Nat)
  | [] => []
  | a :: t => (a, n) :: withIdxFrom (n + 1) t

/-- `arr.map((m,i) => [m,i])`: annotate each element with its index. -/
def withIdx {α : Type} (l : List α) : List (α × Nat) := withIdxFrom 0 l

theorem map_fst_withIdxFrom {α : Type} (n : Nat) :
    ∀ l : List α, (withIdxFrom n l).map Prod.fst = l := by
  intro l
  induction l generalizing n with
  | nil => rfl
  | cons a t ih => simp [withIdxFrom, ih]

theorem map_fst_withIdx {α : Type} (l : List α) : (withIdx l).map Prod.fst = l :=
  map_fst_withIdxFrom 0 l

theorem mem_withIdxFrom {α : Type} {p : α × Nat} :
    ∀ {l : List α} {n : Nat}, p ∈ withIdxFrom n l → p.1 ∈ l ∧ n ≤ p.2 := by
  intro l
  induction l with
  | nil => intro n h; simp [withIdxFrom] at h
  | cons a t ih =>
    intro n h
    simp only [withIdxFrom, List.mem_cons] at h
    rcases h with h | h
    · subst h; exact ⟨List.mem_cons_self a t, le_refl n⟩
    · have := ih h
      exact ⟨List.mem_cons_of_mem a this.1, le_trans (Nat.le_succ n) this.2⟩

theorem pairwise_withIdxFrom_of_pairwise {α : Type} {r : α → α → Prop} :
    ∀ {l : List α} {n : Nat}, l.Pairwise r →
      (withIdxFrom n l).Pairwise (fun p q => r p.1 q.1) := by
  intro l
  induction l with
  | nil => intro n _; exact List.Pairwise.nil
  | cons a t ih =>
    intro n h
    rcases List.pairwise_cons.mp h with ⟨ha, ht⟩
    refine List.pairwise_cons.mpr ⟨?_, ih ht⟩
    intro q hq
    exact ha q.1 (mem_withIdxFrom hq).1

theorem pairwise_idx_lt_withIdxFrom {α : Type} :
    ∀ (l : List α) (n : Nat), (withIdxFrom n l).Pairwise (fun p q => p.2 < q.2) := by
  intro l
  induction l with
  | nil => intro n; exact List.Pairwise.nil
  | cons a t ih =>
    intro n
    refine List.pairwise_cons.mpr ⟨?_, ih (n + 1)⟩
    intro q hq
    exact lt_of_lt_of_le (Nat.lt_succ_self n) (mem_withIdxFrom hq).2

theorem pairwise_idx_ne_withIdx {α : Type} (l : List α) :
    (withIdx l).Pairwise (fun p q => p.2 ≠ q.2) :=
  (pairwise_idx_lt_withIdxFrom l 0).imp (fun h => Nat.ne_of_lt h)

theorem pairwise_withIdx_of_pairwise {α : Type} {r : α → α → Prop} {l : List α}
    (h : l.Pairwise r) : (withIdx l).Pairwise (fun p q => r p.1 q.1) :=
  pairwise_withIdxFrom_of_pairwise h

/-! ## Data model: metadata records

A Cinemeta metadata record, reduced to the fields the pipeline reads.
JS numeric fields (`year`, `imdbRating`, `runtime`, `addedAt`) are modelled as
`Int`: the code only ever compares them (after `toNum`/`Number` extraction,
whose result is modelled as the already-extracted value — e.g. a rating `"7.8"`
can be represented in tenths), so only their relative order matters.
A raw genre field (`meta.genres || meta.genre`) is a string, an array of
strings, or absent. -/

inductive GenreField : Type
  | missing : GenreField
  | str : String → GenreField
  | arr : List String → GenreField
deriving DecidableEq, Repr

structure Meta : Type where
  id : String
  name : String
  type : String
  year : Int
  imdbRating : Int
  runtime : Int
  addedAt : Int
  genres : GenreField
deriving DecidableEq, Repr

/-- A convenient all-defaults record (mirrors JS fields being `undefined`/`0`). -/
def Meta.mk0 : Meta := ⟨"", "", "", 0, 0, 0, 0, GenreField.missing⟩

/-! ## Genre canonicalizer (`_normGenre`, `canonicalizeGenre`, `explodeToCanonicalSet`) -/

/-- Character class of `/[\s._-]+/` (the separators collapsed by `_normGenre`). -/
def isSepCh (c : Char) : Bool := c.isWhitespace || c = '.' || c = '_' || c = '-'

/-- Collapse runs of spaces to a single space (after separators are mapped to
spaces this realises `replace(/[\s._-]+/g, ' ')`). -/
def squeezeSpaces : List Char → List Char
  | [] => []
  | [c] => [c]
  | a :: b :: t =>
    if a = ' ' ∧ b = ' ' then squeezeSpaces (b :: t) else a :: squeezeSpaces (b :: t)

/-- `_normGenre`: lowercase, collapse whitespace/punctuation separator runs to a
single space, trim. -/
def normGenreL (cs : List Char) : List Char :=
  trimL (squeezeSpaces ((jsLowerL cs).map (fun c => if isSepCh c then ' ' else c)))

/-- `_normGenre` on strings. -/
def normGenreS (s : String) : String := ⟨normGenreL s.data⟩

/-- First-match association lookup (JS `Map.get`; all keys are distinct). -/
def alookup {α : Type} (k : String) (l : List (String × α)) : Option α :=
  (l.find? (fun p => p.1 = k)).map Prod.snd

/-- `GENRE_ALIASES`, verbatim from the source (entries whose key contains a
hyphen are unreachable because `_normGenre` maps hyphens to spaces, but they
are kept to mirror the table). -/
def GENRE_ALIASES : List (String × String) :=
  [("sci fi", "Sci-Fi"), ("scifi", "Sci-Fi"), ("sci-fi", "Sci-Fi"),
   ("science fiction", "Sci-Fi"),
   ("doc", "Documentary"), ("docs", "Documentary"),
   ("documentaries", "Documentary"), ("documentary", "Documentary"),
   ("biopic", "Biography"), ("bio", "Biography"), ("biography", "Biography"),
   ("tvmovie", "TV Movie"), ("tv movie", "TV Movie"),
   ("reality tv", "Reality-TV"), ("reality-tv", "Reality-TV"),
   ("talk show", "Talk-Show"), ("talk-show", "Talk-Show"),
   ("game show", "Game-Show"), ("game-show", "Game-Show"),
   ("kids", "Family"), ("children", "Family"), ("childrens", "Family"),
   ("action & adventure", "Action & Adventure"),
   ("sci-fi & fantasy", "Sci-Fi & Fantasy")]

/-- `GENRE_EXPANDS`: compound genres and their constituent canonical genres. -/
def GENRE_EXPANDS : List (String × List String) :=
  [("Action & Adventure", ["Action", "Adventure"]),
   ("Sci-Fi & Fantasy", ["Sci-Fi", "Fantasy"])]

/-- `w ? w[0].toUpperCase() + w.slice(1) : w` — capitalise the first character. -/
def capFirst : List Char → List Char
  | [] => []
  | c :: t => c.toUpper :: t

/-- `key.split(' ')` — split on single space characters. -/
def splitSpAux : List Char → List Char → List (List Char)
  | acc, [] => [acc.reverse]
  | acc, c :: cs => if c = ' ' then acc.reverse :: splitSpAux [] cs else splitSpAux (c :: acc) cs

/-- `join(' ')` over word lists. -/
def joinSp : List (List Char) → List Char
  | [] => []
  | [w] => w
  | w :: ws => w ++ ' ' :: joinSp ws

/-- `canonicalizeGenre(input)`: `null` (here `none`) for empty input, else alias
lookup on the normalized key, falling back to title-casing each word; the
title-cased string `"Sci Fi"` maps to `"Sci-Fi"`. -/
def canonicalizeGenre (input : String) : Option String :=
  if input = "" then none
  else
    let key := normGenreS input
    match alookup key GENRE_ALIASES with
    | some g => some g
    | none =>
      let words : String := ⟨joinSp ((splitSpAux [] key.data).map capFirst)⟩
      if words = "Sci Fi" then some "Sci-Fi" else some words

/-- After a space, detect the tail of the (case-insensitive) separator
`" and "` and return the remainder after it. -/
def andSepTail : List Char → Option (List Char)
  | c1 :: c2 :: c3 :: c4 :: rest =>
    if (c1 = 'a' ∨ c1 = 'A') ∧ (c2 = 'n' ∨ c2 = 'N') ∧ (c3 = 'd' ∨ c3 = 'D') ∧ c4 = ' '
    then some rest else none
  | _ => none

/-- `String(raw).split(/[,&\/]| and /i)`: split a raw genre string on comma,
ampersand, slash, or the (case-insensitive) word `" and "`. Fuel-indexed for
structural recursion; the fuel is initialised to the string length, which is
always sufficient since each step consumes at least one character. -/
def splitRawAux : Nat → List Char → List Char → List (List Char)
  | _, acc, [] => [acc.reverse]
  | 0, acc, rest => [acc.reverse ++ rest]
  | Nat.succ f, acc, c :: cs =>
    if c = ',' ∨ c = '&' ∨ c = '/' then acc.reverse :: splitRawAux f [] cs
    else if c = ' ' then
      match andSepTail cs with
      | some rest => acc.reverse :: splitRawAux f [] rest
      | none => splitRawAux f (c :: acc) cs
    else splitRawAux f (c :: acc) cs

/-- Top-level split with sufficient fuel. -/
def splitRaw (s : List Char) : List (List Char) := splitRawAux s.length [] s

/-- JS `Set.add` realised on an insertion-ordered duplicate-free list. -/
def addUnique (acc : List String) (x : String) : List String :=
  if acc.contains x then acc else acc ++ [x]

/-- The loop body of `explodeToCanonicalSet`: canonicalize each part, skip falsy
results, expand compound genres, and add to the set. -/
def explodeParts (parts : List String) : List String :=
  parts.foldl (fun acc p =>
    match canonicalizeGenre p with
    | none => acc
    | some c =>
      if c = "" then acc
      else
        match alookup c GENRE_EXPANDS with
        | some es => es.foldl addUnique acc
        | none => addUnique acc c) []

/-- `explodeToCanonicalSet(raw)`: empty for a falsy field; an array is used
as-is, a string is split on the delimiter regex. The insertion-ordered result
list models the JS `Set`. -/
def explodeToCanonicalSet : GenreField → List String
  | GenreField.missing => []
  | GenreField.arr l => explodeParts l
  | GenreField.str s => if s = "" then [] else explodeParts ((splitRaw s.data).map (fun cs => (⟨cs⟩ : String)))

/-- The genre filter of `handleCatalog`: the requested genre's canonical form is
expanded (`GENRE_EXPANDS.get(wantedCanon) || [wantedCanon]`), and an item
matches when its exploded genre set intersects the wanted set. A `none`
canonical form (empty request, guarded by callers) matches nothing, like the
JS `[null]` singleton. -/
def genreWantedSet (genreRaw : String) : List String :=
  match canonicalizeGenre genreRaw with
  | none => []
  | some c => (alookup c GENRE_EXPANDS).getD [c]

/-- One item's genre test in the `handleCatalog` filter. -/
def genreItemMatches (genreRaw : String) (meta : Meta) : Bool :=
  (genreWantedSet genreRaw).any (fun w => (explodeToCanonicalSet meta.genres).contains w)

/-- `metas.filter(...)` for the genre filter of `handleCatalog`. -/
def genreFilter (genreRaw : String) (metas : List Meta) : List Meta :=
  metas.filter (genreItemMatches genreRaw)

example : canonicalizeGenre "  SCI-FI " = some "Sci-Fi" := by decide
example : canonicalizeGenre "horror" = some "Horror" := by decide
example : explodeToCanonicalSet (GenreField.str "Sci-Fi & Fantasy") = ["Sci-Fi", "Fantasy"] := by decide
example : explodeToCanonicalSet (GenreField.str "Action and Adventure") = ["Action", "Adventure"] := by decide
example : explodeToCanonicalSet (GenreField.arr ["Action & Adventure"]) = ["Action", "Adventure"] := by decide
example : explodeToCanonicalSet (GenreField.arr ["Sci-Fi & Fantasy"]) = ["Sci Fi & Fantasy"] := by decide

/-! ## `sortMetas` (main server): comparator-based sort with index tie-break

The JS code annotates each element with its index (`map((m,i) => [m,i])`) and
sorts with a comparator that falls back to index order on key ties, making the
comparator a strict total order on the annotated pairs; the sorted result is
therefore unique, and we realise it with `List.insertionSort`.
`localeCompare(..., {numeric: true, sensitivity: 'base'})` is modelled as
case-insensitive code-unit comparison of the normalized titles; `toNum`
extraction of numeric fields is modelled by the already-extracted `Int`
fields of `Meta`. -/

/-- Strip a leading article if it matches `art` case-insensitively and is
followed by at least one whitespace character (which is consumed greedily,
mirroring `\s+` in the replaced match). -/
def tryArticle (art cs : List Char) : Option (List Char) :=
  if jsLowerL (cs.take art.length) = art then
    match cs.drop art.length with
    | c :: rest => if c.isWhitespace then some (rest.dropWhile Char.isWhitespace) else none
    | [] => none
  else none

/-- `normalizeTitle`: `String(s).replace(/^(the|a|an)\s+/i, '').trim()`, with the
regex alternatives tried in source order (`the`, `a`, `an`). -/
def normalizeTitle (cs : List Char) : List Char :=
  let stripped :=
    match tryArticle ['t', 'h', 'e'] cs with
    | some r => r
    | none =>
      match tryArticle ['a'] cs with
      | some r => r
      | none =>
        match tryArticle ['a', 'n'] cs with
        | some r => r
        | none => cs
  trimL stripped

/-- `getYear` of `sortMetas` (modelled on the extracted numeric value). -/
def getYear (m : Meta) : Int := m.year

/-- `getRating` of `sortMetas`. -/
def getRating (m : Meta) : Int := m.imdbRating

/-- `getRuntime` of `sortMetas` (`toNum` handles `"101 min"`). -/
def getRuntime (m : Meta) : Int := m.runtime

/-- Sort key for the `name` case: normalized title compared case-insensitively. -/
def nameKeyL (m : Meta) : List Char := jsLowerL (normalizeTitle m.name.data)

/-- The JS comparator on index-annotated pairs:
`d = cmp(a,b); if (d === 0) return iA - iB; return d * dir`. -/
def pairCmp (kcmp : Meta → Meta → Int) (dir : Int) (p q : Meta × Nat) : Int :=
  if kcmp p.1 q.1 = 0 then (p.2 : Int) - (q.2 : Int) else kcmp p.1 q.1 * dir

/-- `comparator(p, q) <= 0` as a decidable relation (the order realised by a JS
sort with this comparator). -/
def pairLeP (kcmp : Meta → Meta → Int) (dir : Int) (p q : Meta × Nat) : Prop :=
  pairCmp kcmp dir p q ≤ 0

instance (kcmp : Meta → Meta → Int) (dir : Int) : DecidableRel (pairLeP kcmp dir) :=
  fun p q => inferInstanceAs (Decidable (pairCmp kcmp dir p q ≤ 0))

/-- `[...arr].map((m,i)=>[m,i]).sort(comparator)`. -/
def sortPairs (kcmp : Meta → Meta → Int) (dir : Int) (arr : List Meta) : List (Meta × Nat) :=
  List.insertionSort (pairLeP kcmp dir) (withIdx arr)

/-- `...sort(comparator).map(x => x[0])`. -/
def sortedByKey (kcmp : Meta → Meta → Int) (dir : Int) (arr : List Meta) : List Meta :=
  (sortPairs kcmp dir arr).map Prod.fst

/-- `sortMetas(arr, sortKey, order)` of the main server file. -/
def sortMetas (arr : List Meta) (sortKey order : String) : List Meta :=
  let key := jsLowerS sortKey
  let dir : Int := if jsLowerS order = "desc" then -1 else 1
  if key = "year" then sortedByKey (fun a b => getYear a - getYear b) dir arr
  else if key = "rating" then sortedByKey (fun a b => getRating a - getRating b) dir arr
  else if key = "runtime" then sortedByKey (fun a b => getRuntime a - getRuntime b) dir arr
  else if key = "name" ∨ key = "title" ∨ key = "alphabetical" then
    sortedByKey (fun a b => lcCmp (nameKeyL a) (nameKeyL b)) dir arr
  else if dir = -1 then arr.reverse else arr

/-! ### Order-theoretic facts about the annotated comparator

`hA` states sign-antisymmetry of the key comparator, `hT` transitivity of its
non-positive part; both hold for the numeric difference comparators and for
`lcCmp` on name keys. -/

theorem kcmp_self_eq_zero {kcmp : Meta → Meta → Int}
    (hA : ∀ a b, kcmp a b = -(kcmp b a)) (a : Meta) : kcmp a a = 0 := by
  have := hA a a; omega

theorem kcmp_strict_neg {kcmp : Meta → Meta → Int}
    (hA : ∀ a b, kcmp a b = -(kcmp b a))
    (hT : ∀ a b c, kcmp a b ≤ 0 → kcmp b c ≤ 0 → kcmp a c ≤ 0)
    {a b c : Meta} (h1 : kcmp a b ≤ 0) (h2 : kcmp b c ≤ 0)
    (hs : kcmp a b < 0 ∨ kcmp b c < 0) : kcmp a c < 0 := by
  have hac : kcmp a c ≤ 0 := hT a b c h1 h2
  rcases lt_or_eq_of_le hac with h | h
  · exact h
  · exfalso
    have hca : kcmp c a ≤ 0 := by have := hA a c; omega
    rcases hs with hs | hs
    · have hba : kcmp b a ≤ 0 := hT b c a h2 hca
      have := hA a b; omega
    · have hcb : kcmp c b ≤ 0 := hT c a b hca h1
      have := hA b c; omega

theorem pairLe_total {kcmp : Meta → Meta → Int} {dir : Int}
    (hA : ∀ a b, kcmp a b = -(kcmp b a)) (p q : Meta × Nat) :
    pairLeP kcmp dir p q ∨ pairLeP kcmp dir q p := by
  unfold pairLeP pairCmp
  by_cases h : kcmp p.1 q.1 = 0
  · have h' : kcmp q.1 p.1 = 0 := by have := hA p.1 q.1; omega
    simp only [h, h', if_true]
    omega
  · have h' : ¬ kcmp q.1 p.1 = 0 := by have := hA p.1 q.1; omega
    simp only [h, h', if_false]
    have : kcmp q.1 p.1 * dir = -(kcmp p.1 q.1 * dir) := by
      rw [hA q.1 p.1]; ring
    omega

theorem pairLe_trans {kcmp : Meta → Meta → Int} {dir : Int}
    (hA : ∀ a b, kcmp a b = -(kcmp b a))
    (hT : ∀ a b c, kcmp a b ≤ 0 → kcmp b c ≤ 0 → kcmp a c ≤ 0)
    (hdir : dir = 1 ∨ dir = -1) (p q r : Meta × Nat) :
    pairLeP kcmp dir p q → pairLeP kcmp dir q r → pairLeP kcmp dir p r := by
  unfold pairLeP pairCmp
  intro h1 h2
  by_cases hab : kcmp p.1 q.1 = 0
  · have hab' : kcmp p.1 q.1 ≤ 0 := le_of_eq hab
    have hba : kcmp q.1 p.1 = 0 := by have := hA p.1 q.1; omega
    by_cases hbc : kcmp q.1 r.1 = 0
    · have hcb : kcmp r.1 q.1 = 0 := by have := hA q.1 r.1; omega
      have hac : kcmp p.1 r.1 ≤ 0 := hT p.1 q.1 r.1 hab' (le_of_eq hbc)
      have hca : kcmp r.1 p.1 ≤ 0 := hT r.1 q.1 p.1 (le_of_eq hcb) (le_of_eq hba)
      have hac0 : kcmp p.1 r.1 = 0 := by have := hA p.1 r.1; omega
      simp only [hab, hbc, hac0, if_true] at h1 h2 ⊢
      omega
    · simp only [hab, if_true] at h1
      simp only [hbc, if_false] at h2
      rcases hdir with hd | hd
      · subst hd
        have hbcn : kcmp q.1 r.1 < 0 := by omega
        have : kcmp p.1 r.1 < 0 :=
          kcmp_strict_neg hA hT hab' (le_of_lt hbcn) (Or.inr hbcn)
        have hne : ¬ kcmp p.1 r.1 = 0 := by omega
        simp only [hne, if_false]
        omega
      · subst hd
        have hbcp : 0 < kcmp q.1 r.1 := by omega
        have hcb : kcmp r.1 q.1 < 0 := by have := hA q.1 r.1; omega
        have : kcmp r.1 p.1 < 0 :=
          kcmp_strict_neg hA hT (le_of_lt hcb) (le_of_eq hba) (Or.inl hcb)
        have hpr : 0 < kcmp p.1 r.1 := by have := hA p.1 r.1; omega
        have hne : ¬ kcmp p.1 r.1 = 0 := by omega
        simp only [hne, if_false]
        omega
  · by_cases hbc : kcmp q.1 r.1 = 0
    · have hcb : kcmp r.1 q.1 = 0 := by have := hA q.1 r.1; omega
      simp only [hab, if_false] at h1
      rcases hdir with hd | hd
      · subst hd
        have habn : kcmp p.1 q.1 < 0 := by omega
        have : kcmp p.1 r.1 < 0 :=
          kcmp_strict_neg hA hT (le_of_lt habn) (le_of_eq hbc) (Or.inl habn)
        have hne : ¬ kcmp p.1 r.1 = 0 := by omega
        simp only [hne, if_false]
        omega
      · subst hd
        have habp : 0 < kcmp p.1 q.1 := by omega
        have hba : kcmp q.1 p.1 < 0 := by have := hA p.1 q.1; omega
        have : kcmp r.1 p.1 < 0 :=
          kcmp_strict_neg hA hT (le_of_eq hcb) (le_of_lt hba) (Or.inr hba)
        have hpr : 0 < kcmp p.1 r.1 := by have := hA p.1 r.1; omega
        have hne : ¬ kcmp p.1 r.1 = 0 := by omega
        simp only [hne, if_false]
        omega
    · simp only [hab, if_false] at h1
      simp only [hbc, if_false] at h2
      rcases hdir with hd | hd
      · subst hd
        have habn : kcmp p.1 q.1 < 0 := by omega
        have hbcn : kcmp q.1 r.1 < 0 := by omega
        have : kcmp p.1 r.1 < 0 :=
          kcmp_strict_neg hA hT (le_of_lt habn) (le_of_lt hbcn) (Or.inl habn)
        have hne : ¬ kcmp p.1 r.1 = 0 := by omega
        simp only [hne, if_false]
        omega
      · subst hd
        have habp : 0 < kcmp p.1 q.1 := by omega
        have hbcp : 0 < kcmp q.1 r.1 := by omega
        have hba : kcmp q.1 p.1 < 0 := by have := hA p.1 q.1; omega
        have hcb : kcmp r.1 q.1 < 0 := by have := hA q.1 r.1; omega
        have : kcmp r.1 p.1 < 0 :=
          kcmp_strict_neg hA hT (le_of_lt hcb) (le_of_lt hba) (Or.inl hcb)
        have hpr : 0 < kcmp p.1 r.1 := by have := hA p.1 r.1; omega
        have hne : ¬ kcmp p.1 r.1 = 0 := by omega
        simp only [hne, if_false]
        omega

theorem sortPairs_perm (kcmp : Meta → Meta → Int) (dir : Int) (arr : List Meta) :
    (sortPairs kcmp dir arr).Perm (withIdx arr) :=
  List.perm_insertionSort _ _

theorem sortedByKey_perm (kcmp : Meta → Meta → Int) (dir : Int) (arr : List Meta) :
    (sortedByKey kcmp dir arr).Perm arr := by
  have h := (sortPairs_perm kcmp dir arr).map Prod.fst
  rwa [map_fst_withIdx] at h

theorem sortPairs_sorted {kcmp : Meta → Meta → Int} {dir : Int}
    (hA : ∀ a b, kcmp a b = -(kcmp b a))
    (hT : ∀ a b c, kcmp a b ≤ 0 → kcmp b c ≤ 0 → kcmp a c ≤ 0)
    (hdir : dir = 1 ∨ dir = -1) (arr : List Meta) :
    (sortPairs kcmp dir arr).Pairwise (pairLeP kcmp dir) := by
  haveI : IsTotal (Meta × Nat) (pairLeP kcmp dir) := ⟨pairLe_total hA⟩
  haveI : IsTrans (Meta × Nat) (pairLeP kcmp dir) := ⟨pairLe_trans hA hT hdir⟩
  exact List.sorted_insertionSort (pairLeP kcmp dir) (withIdx arr)

/-- The strict lexicographic order (key under the requested direction, then
original index) that fully characterises the output of `sortMetas`'s
comparator-based branches. -/
def strictLex (kcmp : Meta → Meta → Int) (dir : Int) (p q : Meta × Nat) : Prop :=
  kcmp p.1 q.1 * dir < 0 ∨ (kcmp p.1 q.1 = 0 ∧ p.2 < q.2)

theorem sortPairs_pairwise_idx_ne (kcmp : Meta → Meta → Int) (dir : Int) (arr : List Meta) :
    (sortPairs kcmp dir arr).Pairwise (fun p q => p.2 ≠ q.2) := by
  have hsym : ∀ {x y : Meta × Nat}, x.2 ≠ y.2 → y.2 ≠ x.2 := fun h => Ne.symm h
  exact ((sortPairs_perm kcmp dir arr).pairwise_iff hsym).mpr
    (pairwise_idx_ne_withIdx arr)

theorem sortPairs_pairwise_strictLex {kcmp : Meta → Meta → Int} {dir : Int}
    (hA : ∀ a b, kcmp a b = -(kcmp b a))
    (hT : ∀ a b c, kcmp a b ≤ 0 → kcmp b c ≤ 0 → kcmp a c ≤ 0)
    (hdir : dir = 1 ∨ dir = -1) (arr : List Meta) :
    (sortPairs kcmp dir arr).Pairwise (strictLex kcmp dir) := by
  have h1 := sortPairs_sorted hA hT hdir arr
  have h2 := sortPairs_pairwise_idx_ne kcmp dir arr
  refine (h1.and h2).imp ?_
  intro p q h
  rcases h with ⟨hle, hne⟩
  unfold pairLeP pairCmp at hle
  unfold strictLex
  by_cases h0 : kcmp p.1 q.1 = 0
  · simp only [h0, if_true] at hle
    exact Or.inr ⟨h0, by omega⟩
  · simp only [h0, if_false] at hle
    refine Or.inl ?_
    rcases hdir with hd | hd <;> subst hd <;> omega

/-! ## Request-parameter parsing (`parseInt`, skip/limit clamps) -/

/-- Value of a run of decimal digit characters. -/
def digitsVal (ds : List Char) : Nat :=
  ds.foldl (fun n c => n * 10 + (c.toNat - '0'.toNat)) 0

/-- The digit-run part of `parseInt`: `none` models `NaN`. -/
def parseDigits (cs : List Char) : Option Nat :=
  let ds := cs.takeWhile Char.isDigit
  if ds.isEmpty then none else some (digitsVal ds)

/-- `parseInt(s, 10)`: leading whitespace skipped, optional sign, maximal digit
run; `none` models `NaN`. -/
def jsParseIntL (cs : List Char) : Option Int :=
  match cs.dropWhile Char.isWhitespace with
  | '-' :: t => (parseDigits t).map (fun n => -(n : Int))
  | '+' :: t => (parseDigits t).map (fun n => (n : Int))
  | t => (parseDigits t).map (fun n => (n : Int))

/-- `parseInt` on strings. -/
def jsParseInt (s : String) : Option Int := jsParseIntL s.data

/-- The catalog handler's effective limit:
`Math.max(1, Math.min(80, parseInt(extras.limit || '50', 10) || 50))`.
The `|| 50` fallback turns `NaN` and `0` into the default. -/
def effLimit (s : String) : Int :=
  let raw := if s = "" then "50" else s
  let p : Int :=
    match jsParseInt raw with
    | none => 50
    | some 0 => 50
    | some n => n
  max 1 (min 80 p)

/-- The catalog handler's effective skip:
`Math.max(0, parseInt(extras.skip || '0', 10) || 0)`. -/
def effSkip (s : String) : Int :=
  let raw := if s = "" then "0" else s
  let p : Int :=
    match jsParseInt raw with
    | none => 0
    | some n => n
  max 0 p

/-! ## `typedPage`: resolve, type-check, search-filter in source order

The Cinemeta resolver is abstracted as the environment function
`metaOf : bucket → id → Option Meta` (the code's `getMeta` is deterministic
within one request thanks to its cache; the stateful cache model appears
below). The worker pool writes each resolved meta into a slot at the id's
original index and the result is compacted in index order, so the outcome is
independent of worker scheduling and equals a `filterMap` in list order. -/

/-- Pure form of `getTypedMetaDeterministic`: a series record suppresses the
movie lookup. -/
def getTypedMetaDeterministicP (metaOf : String → String → Option Meta)
    (type tt : String) : Option Meta :=
  if type = "movie" then
    match metaOf "series" tt with
    | some _ => none
    | none => metaOf "movie" tt
  else metaOf "series" tt

/-- One slot of `typedPage`'s worker loop: resolve, drop mismatched `meta.type`,
drop search misses. -/
def typedSlot (metaOf : String → String → Option Meta) (type : String)
    (searchL : List Char) (tt : String) : Option Meta :=
  match getTypedMetaDeterministicP metaOf type tt with
  | none => none
  | some meta =>
    if meta.type ≠ "" ∧ jsLowerS meta.type ≠ type then none
    else if searchL ≠ [] ∧ ¬ (jsIncludesL searchL (jsLowerL meta.name.data) = true) then none
    else some meta

/-- `typedPage(type, ids, opts)`: slots compacted in original order, truncated
at `skip + limit` items. -/
def typedPage (metaOf : String → String → Option Meta) (type : String)
    (ids : List String) (skip limit : Int) (search : String) : List Meta :=
  let skipN := (max 0 skip).toNat
  let limitN := (max 1 limit).toNat
  let searchL := trimL (jsLowerL search.data)
  (ids.filterMap (typedSlot metaOf type searchL)).take (skipN + limitN)

/-! ## Visibility (`visibilityFor`) and the catalog pipeline -/

structure Vis : Type where
  discover : Bool
  home : Bool
deriving DecidableEq, Repr

structure VisCfg : Type where
  movie : Vis
  series : Vis
deriving DecidableEq, Repr

/-- A user list entry as read by the catalog path: legacy `showIn` (empty
string models an absent field) and the optional structured `visibility`. -/
structure ListRec : Type where
  showIn : String
  visibility : Option VisCfg
deriving DecidableEq, Repr

/-- `visibilityFor(list)`: structured visibility wins; otherwise the legacy
`showIn` value (defaulting to `"discover"`) expands to per-type flags. -/
def visibilityFor (l : ListRec) : VisCfg :=
  let legacy := jsLowerS (if l.showIn = "" then "discover" else l.showIn)
  let base : Vis := ⟨legacy = "discover" ∨ legacy = "both", legacy = "home" ∨ legacy = "both"⟩
  match l.visibility with
  | some v => ⟨⟨v.movie.discover, v.movie.home⟩, ⟨v.series.discover, v.series.home⟩⟩
  | none => ⟨base, base⟩

/-- The per-type visibility the handler reads (`type === 'movie' ? vis.movie :
vis.series`). -/
def tVisOf (l : ListRec) (type : String) : Vis :=
  if type = "movie" then (visibilityFor l).movie else (visibilityFor l).series

/-- `__isHomeOnly = !!(tVis && tVis.home && !tVis.discover)`. -/
def isHomeOnlyOf (l : ListRec) (type : String) : Bool :=
  (tVisOf l type).home && !(tVisOf l type).discover

/-- Query parameters of a catalog request (empty string models an absent
parameter; `genre` is the merged query-string/path value). -/
structure Extras : Type where
  skip : String
  limit : String
  search : String
  genre : String
  sort : String
  order : String
deriving DecidableEq, Repr

/-- The all-absent query. -/
def Extras.none0 : Extras := ⟨"", "", "", "", "", ""⟩

/-- The home-only ghosting gate of `handleCatalog`: block any request whose
canonical genre is not `top` or that carries a non-empty (trimmed) search. -/
def gateBlocked (l : ListRec) (type : String) (ex : Extras) : Bool :=
  let gCanon := jsLowerS (if ex.genre = "" then "Top" else ex.genre)
  isHomeOnlyOf l type && (gCanon ≠ "top" || (ex.search ≠ "" && trimS ex.search ≠ ""))

/-- The pre-pagination stage of `handleCatalog`: over-fetch a page of at least
`max(limit + skip, 80)` typed metas, genre-filter, optionally sort. -/
def catalogPreSlice (metaOf : String → String → Option Meta) (ids : List String)
    (type : String) (ex : Extras) : List Meta :=
  let skip := effSkip ex.skip
  let limit := effLimit ex.limit
  let search := trimS ex.search
  let metas0 := typedPage metaOf type ids 0 (max (limit + skip) 80) search
  let metas1 :=
    if ex.genre ≠ "" ∧ jsLowerS ex.genre ≠ "top" then genreFilter ex.genre metas0 else metas0
  if ex.sort ≠ "" then sortMetas metas1 ex.sort (if ex.order = "" then "asc" else ex.order)
  else metas1

/-- The post-gate part of `handleCatalog`: the pre-pagination stage followed by
`slice(skip, skip + limit)`. -/
def catalogPipeline (metaOf : String → String → Option Meta) (ids : List String)
    (type : String) (ex : Extras) : List Meta :=
  ((catalogPreSlice metaOf ids type ex).drop (effSkip ex.skip).toNat).take (effLimit ex.limit).toNat

/-- `handleCatalog` after catalog-id validation: the ghosting gate followed by
the query pipeline. -/
def handleCatalogCore (metaOf : String → String → Option Meta) (ids : List String)
    (l : ListRec) (type : String) (ex : Extras) : List Meta :=
  if gateBlocked l type ex then [] else catalogPipeline metaOf ids type ex

/-! ## `applySearchAndSort` (lib/prefetch.js)

The JS engine's stable `Array.sort` is realised exactly by sorting
index-annotated pairs with the comparator extended by index order on ties. -/

/-- Lower-cased raw display name (`nameLc`). -/
def lowNameL (m : Meta) : List Char := jsLowerL m.name.data

/-- `valOf` of `applySearchAndSort` (numeric keys; `added` reads `addedAt`). -/
def aSASvalOf (sortKey : String) (x : Meta) : Int :=
  if sortKey = "year" then x.year
  else if sortKey = "rating" then x.imdbRating
  else if sortKey = "runtime" then x.runtime
  else x.addedAt

/-- The comparator of `applySearchAndSort`, as the sign of the JS return value:
name sorts compare lower-cased name, then raw name, then id (the id tie-break
is not direction-reversed); numeric sorts compare the value, then lower-cased
name, then id. -/
def aSAScmp (sortKey : String) (desc : Bool) (a b : Meta) : Int :=
  if sortKey = "name" then
    let d1 := lcCmp (lowNameL a) (lowNameL b)
    if d1 ≠ 0 then (if desc then -d1 else d1)
    else
      let d2 := lcCmp a.name.data b.name.data
      if d2 ≠ 0 then (if desc then -d2 else d2)
      else lcCmp a.id.data b.id.data
  else
    let d1 := aSASvalOf sortKey a - aSASvalOf sortKey b
    if d1 ≠ 0 then (if desc then -d1 else d1)
    else
      let d2 := lcCmp (lowNameL a) (lowNameL b)
      if d2 ≠ 0 then d2
      else lcCmp a.id.data b.id.data

/-- Stable-sort order for `applySearchAndSort`: comparator, then input index. -/
def aSASrel (sortKey : String) (desc : Bool) (p q : Meta × Nat) : Prop :=
  aSAScmp sortKey desc p.1 q.1 < 0 ∨ (aSAScmp sortKey desc p.1 q.1 = 0 ∧ p.2 ≤ q.2)

instance (sortKey : String) (desc : Bool) : DecidableRel (aSASrel sortKey desc) :=
  fun p q => inferInstanceAs (Decidable (aSAScmp sortKey desc p.1 q.1 < 0 ∨ (aSAScmp sortKey desc p.1 q.1 = 0 ∧ p.2 ≤ q.2)))

/-- The stable sort of `applySearchAndSort`. -/
def aSASsort (sortKey : String) (desc : Bool) (items : List Meta) : List Meta :=
  (List.insertionSort (aSASrel sortKey desc) (withIdx items)).map Prod.fst

/-- `applySearchAndSort(items, {search, sort, order, skip, limit})`.
`skip` is modelled as a natural number (`Number(skip) || 0`; every caller
passes a non-negative value), `limit` as an `Int` clamped as in the source.
The search-filter/sort stage is split out as `aSASpre` so that the
pagination algebra can be stated about it. -/
def aSASpre (items : List Meta) (search sort ord : String) : List Meta :=
  let sortKey := if sort = "" then "added" else jsLowerS sort
  let defaultOrder := if sortKey = "rating" then "desc" else "asc"
  let sortOrder := if ord = "" then defaultOrder else jsLowerS ord
  let out :=
    if search = "" then items
    else items.filter (fun x => jsIncludesL (jsLowerL search.data) (lowNameL x))
  aSASsort sortKey (sortOrder = "desc") out

/-- Pagination of `applySearchAndSort`: clamp the limit and slice. -/
def applySearchAndSort (items : List Meta) (search sort ord : String)
    (skip : Nat) (limit : Int) : List Meta :=
  let limitC := max 0 (min (if limit = 0 then 50 else limit) 500)
  ((aSASpre items search sort ord).drop skip).take limitC.toNat

example : effLimit "" = 50 := by decide
example : effLimit "0" = 50 := by decide
example : effLimit "abc" = 50 := by decide
example : effLimit "-5" = 1 := by decide
example : effLimit "200" = 80 := by decide
example : effSkip "20" = 20 := by decide

/-! ## In-memory TTL cache (`mem`, `getCache`, `setCache`)

The process-wide `Map` is an association list with unique keys; `Map.set`
replaces in place, `getCache` lazily deletes an expired entry
(`x.exp && x.exp < now()`). Times are naturals (milliseconds). -/

abbrev CacheMap (α : Type) : Type := List (String × α × Nat)

def cacheFind {α : Type} (mem : CacheMap α) (key : String) : Option (α × Nat) :=
  (List.find? (fun e => e.1 = key) mem).map (fun e => e.2)

def cacheErase {α : Type} (mem : CacheMap α) (key : String) : CacheMap α :=
  List.filter (fun e => decide (e.1 ≠ key)) mem

def cacheSet {α : Type} (mem : CacheMap α) (key : String) (v : α) (exp : Nat) : CacheMap α :=
  match mem with
  | [] => [(key, v, exp)]
  | e :: t => if e.1 = key then (key, v, exp) :: t else e :: cacheSet t key v exp

/-- `getCache(key)`: miss on absent; delete-and-miss on an expired entry. -/
def getCacheM {α : Type} (mem : CacheMap α) (key : String) (now : Nat) :
    Option α × CacheMap α :=
  match cacheFind mem key with
  | none => (none, mem)
  | some (v, exp) =>
    if exp ≠ 0 ∧ exp < now then (none, cacheErase mem key) else (some v, mem)

/-- Default TTL (`IMDB_CACHE_TTL_SEC`, default 1800 seconds). -/
def TTL_SEC : Nat := 1800

/-- `setCache(key, v, ttlSec)`: store with expiry `now + ttlSec * 1000`. -/
def setCacheM {α : Type} (mem : CacheMap α) (key : String) (v : α) (ttlSec now : Nat) :
    CacheMap α :=
  cacheSet mem key v (now + ttlSec * 1000)

/-! ## `getMeta`: cached Cinemeta lookup, throw-safe -/

/-- Outcome of one external `fetch` of `CIN_BASE/<type>/<tt>.json`. -/
inductive FetchRes : Type
  | netThrow : FetchRes
  | httpErr : FetchRes
  | parseErr : FetchRes
  | noMeta : FetchRes
  | got : Meta → FetchRes
deriving DecidableEq, Repr

/-- Meta-cache state plus a count of external calls performed. -/
structure MetaFetchState : Type where
  mem : CacheMap Meta
  calls : Nat
deriving DecidableEq, Repr

/-- The body of `getMeta` up to its `try`/`catch` boundary: `.error` marks the
branches in which the JS body throws (network failure, JSON parse failure);
a non-OK response returns null from inside the `try`; a successful meta is
cached. Every taken branch past the cache hit counts one external call. -/
def getMetaTry (fetch : String → String → FetchRes) (now : Nat)
    (st : MetaFetchState) (type tt : String) :
    Except Unit (Option Meta) × MetaFetchState :=
  let ck := "meta:" ++ type ++ ":" ++ tt
  let r := getCacheM st.mem ck now
  match r.1 with
  | some m => (Except.ok (some m), ⟨r.2, st.calls⟩)
  | none =>
    match fetch type tt with
    | FetchRes.netThrow => (Except.error (), ⟨r.2, st.calls + 1⟩)
    | FetchRes.httpErr => (Except.ok none, ⟨r.2, st.calls + 1⟩)
    | FetchRes.parseErr => (Except.error (), ⟨r.2, st.calls + 1⟩)
    | FetchRes.noMeta => (Except.ok none, ⟨r.2, st.calls + 1⟩)
    | FetchRes.got m => (Except.ok (some m), ⟨setCacheM r.2 ck m TTL_SEC now, st.calls + 1⟩)

/-- `getMeta(type, tt)`: the `catch` converts any thrown body to `null`. -/
def getMetaM (fetch : String → String → FetchRes) (now : Nat)
    (st : MetaFetchState) (type tt : String) : Option Meta × MetaFetchState :=
  match getMetaTry fetch now st type tt with
  | (Except.ok r, st') => (r, st')
  | (Except.error _, st') => (none, st')

/-- Stateful `getTypedMetaDeterministic`: for the movie bucket the series
lookup runs first and suppresses the movie lookup. -/
def getTypedMetaDeterministicM (fetch : String → String → FetchRes) (now : Nat)
    (st : MetaFetchState) (type tt : String) : Option Meta × MetaFetchState :=
  if type = "movie" then
    let r := getMetaM fetch now st "series" tt
    match r.1 with
    | some _ => (none, r.2)
    | none => getMetaM fetch now r.2 "movie" tt
  else getMetaM fetch now st "series" tt

/-! ## TypeStats (`bumpStats`, `hasType`) -/

/-- `{ movie: null|count, series: null|count }` cached under `stats:<lsid>`. -/
structure TypeStats : Type where
  movie : Option Nat
  series : Option Nat
deriving DecidableEq, Repr

/-- `bumpStats(lsid, type, countFound)`: raise the counter of the (normalized)
type to `max(previous || 0, countFound)` and re-store with a 12-hour TTL. -/
def bumpStats (mem : CacheMap TypeStats) (now : Nat) (lsid type : String)
    (countFound : Nat) : CacheMap TypeStats :=
  let ck := "stats:" ++ lsid
  let r := getCacheM mem ck now
  let stats := r.1.getD ⟨none, none⟩
  let isMovie := type = "movie"
  let prev := (if isMovie then stats.movie else stats.series).getD 0
  let next := max prev countFound
  let stats' :=
    if isMovie then { stats with movie := some next }
    else { stats with series := some next }
  setCacheM r.2 ck stats' (12 * 3600) now

/-- `hasType(lsid, type)`: answer from the cached tri-state if set; otherwise
probe (the bounded id scan is abstracted as the environment boolean `probe`),
record 0/1, and re-store with a 12-hour TTL. Callers pass only `"movie"` or
`"series"`, modelled by the binary field selection. -/
def hasType (mem : CacheMap TypeStats) (now : Nat) (lsid type : String)
    (probe : Bool) : Bool × CacheMap TypeStats :=
  let ck := "stats:" ++ lsid
  let r := getCacheM mem ck now
  let stats := r.1.getD ⟨none, none⟩
  let cur := if type = "movie" then stats.movie else stats.series
  match cur with
  | some v => (decide (v > 0), r.2)
  | none =>
    let count : Nat := if probe then 1 else 0
    let stats' :=
      if type = "movie" then { stats with movie := some count }
      else { stats with series := some count }
    (probe, setCacheM r.2 ck stats' (12 * 3600) now)

/-- Observe the stored counter for a (list, type) at time `now`. -/
def readStats (mem : CacheMap TypeStats) (now : Nat) (lsid type : String) : Option Nat :=
  match (getCacheM mem ("stats:" ++ lsid) now).1 with
  | none => none
  | some s => if type = "movie" then s.movie else s.series

/-! ## The classifier (`lib/classifier.mjs`) -/

/-- `mapTitleTypeToBucket(ttype)`: fixed label→bucket table; `none`/empty is
falsy and maps to `unknown`. -/
def mapTitleTypeToBucket (ttype : Option String) (includeMusicVideo : Bool) : String :=
  match ttype with
  | none => "unknown"
  | some ty =>
    if ty = "" then "unknown"
    else
      let t := jsLowerS ty
      if jsIncludesS t "music video" then (if includeMusicVideo then "movie" else "exclude")
      else if jsIncludesS t "video game" then "exclude"
      else if jsIncludesS t "podcast" then "exclude"
      else if t = "movie" ∨ jsIncludesS t "tv movie" ∨ jsIncludesS t "tv special" ∨
        jsIncludesS t "short" ∨ jsIncludesS t "tv short" ∨ t = "video" ∨
        jsIncludesS t "video" then "movie"
      else if jsIncludesS t "tv series" ∨ jsIncludesS t "tv miniseries" ∨
        jsIncludesS t "tv mini series" ∨ jsIncludesS t "miniseries" ∨
        jsIncludesS t "mini series" then "series"
      else if jsIncludesS t "episode" then "episode"
      else "unknown"

/-- The per-id result record produced by the classifier pool worker. -/
structure CRes : Type where
  tt : String
  type : String
  meta : Option Meta
  mapped : Option String
  reason : Option String
deriving DecidableEq, Repr

/-- The classifier's per-id decision tree (`classifyAndWriteSplit`'s worker):
Cinemeta fast path with the series-wins tie-break, then episode up-mapping,
then the HTML titleType fallback, else exclude. The Cinemeta resolver, the
parent-series resolver and the titleType resolver are environment functions. -/
def classifyId (cin : String → String → Option Meta) (parentOf : String → Option String)
    (ttypeOf : String → Option String) (includeMusicVideo : Bool) (tt : String) : CRes :=
  let mMeta := cin "movie" tt
  let sMeta := cin "series" tt
  if mMeta.isSome ∧ sMeta.isNone then ⟨tt, "movie", mMeta, none, none⟩
  else if mMeta.isNone ∧ sMeta.isSome then ⟨tt, "series", sMeta, none, none⟩
  else if mMeta.isSome ∧ sMeta.isSome then ⟨tt, "series", sMeta, none, none⟩
  else
    let upMapped : Option CRes :=
      match parentOf tt with
      | some parent =>
        if parent ≠ tt then
          match cin "series" parent with
          | some pMeta => some ⟨tt, "series", some pMeta, some parent, none⟩
          | none => none
        else none
      | none => none
    match upMapped with
    | some r => r
    | none =>
      let bucket := mapTitleTypeToBucket (ttypeOf tt) includeMusicVideo
      if bucket = "movie" then
        match cin "movie" tt with
        | some mm => ⟨tt, "movie", some mm, none, none⟩
        | none => ⟨tt, "exclude", none, none, some "movie-no-cinemeta"⟩
      else if bucket = "series" then
        match cin "series" tt with
        | some sm => ⟨tt, "series", some sm, none, none⟩
        | none => ⟨tt, "exclude", none, none, some "series-no-cinemeta"⟩
      else if bucket = "episode" then
        match parentOf tt with
        | some parent2 =>
          if parent2 ≠ tt then
            match cin "series" parent2 with
            | some s2 => ⟨tt, "series", some s2, some parent2, none⟩
            | none => ⟨tt, "exclude", none, none, some "episode-no-parent"⟩
          else ⟨tt, "exclude", none, none, some "episode-no-parent"⟩
        | none => ⟨tt, "exclude", none, none, some "episode-no-parent"⟩
      else ⟨tt, "exclude", none, none, some "unknown"⟩

/-! ## Response-level model of the main server's endpoints -/

/-- A JSON response: HTTP status and the `metas` body (empty for non-catalog
endpoints, whose bodies are irrelevant to the claims). -/
structure Resp : Type where
  status : Nat
  metas : List Meta
deriving DecidableEq, Repr

/-- Generic single-character split (`String.prototype.split('-')` etc.). -/
def splitChAux (sep : Char) : List Char → List Char → List (List Char)
  | acc, [] => [acc.reverse]
  | acc, c :: cs =>
    if c = sep then acc.reverse :: splitChAux sep [] cs else splitChAux sep (c :: acc) cs

/-- `m[3]` of the catalog-id regex: `(movies|series)` case-insensitively. -/
def matchBucketWord (cs : List Char) : Bool :=
  jsLowerL cs = "movies".data ∨ jsLowerL cs = "series".data

/-- Match `(ls\d+)-(movies|series)$` and return the lower-cased list id. -/
def lsTail (t : List Char) : Option String :=
  match t with
  | l :: s :: rest =>
    if (l = 'l' ∨ l = 'L') ∧ (s = 's' ∨ s = 'S') then
      let ds := rest.takeWhile Char.isDigit
      let rest2 := rest.dropWhile Char.isDigit
      if ds ≠ [] then
        match rest2 with
        | '-' :: bucket => if matchBucketWord bucket then some ⟨'l' :: 's' :: ds⟩ else none
        | _ => none
      else none
    else none
  | _ => none

/-- Scan for the non-greedy `(.+?)` uid group: at each `-` after at least one
captured character, try to match the rest of the pattern; the first success
gives the (shortest) uid, as regex backtracking does. -/
def scanUid : List Char → List Char → Option (String × String)
  | _, [] => none
  | acc, c :: cs =>
    if c = '-' ∧ acc ≠ [] then
      match lsTail cs with
      | some lsid => some (⟨acc.reverse⟩, lsid)
      | none => scanUid (c :: acc) cs
    else scanUid (c :: acc) cs

/-- `catalogId.match(/^imdb-(.+?)-(ls\d+)-(movies|series)$/i)`, returning the
uid group and the lower-cased lsid group. -/
def parseCatalogId (s : String) : Option (String × String) :=
  let cs := s.data
  if jsLowerL (cs.take 5) = "imdb-".data then scanUid [] (cs.drop 5) else none

/-- The ghosting block's list lookup: uid and lsid are re-derived by a plain
`split('-')` (with `|| 'default'` / `|| ''` fallbacks), the user's list entry
is looked up through the environment `listOf`, and a missing entry degrades
to the empty record `{}`. -/
def catalogGhostList (listOf : String → String → Option ListRec) (catalogId : String) :
    ListRec :=
  let parts := splitChAux '-' [] catalogId.data
  let gsUid : String :=
    match parts.get? 1 with
    | some u => if u.isEmpty then "default" else ⟨u⟩
    | none => "default"
  let gsLsid : String :=
    match parts.get? 2 with
    | some l => ⟨l⟩
    | none => ""
  (listOf gsUid gsLsid).getD ⟨"", none⟩

/-- `handleCatalog(req, res)` at the response level. `oops` models an internal
exception thrown anywhere inside the handler's `try` block: the `catch`
responds `res.json({metas: []})` (status 200) and no statistics update runs.
On the normal path: an invalid type or an unparsable catalog id short-circuit
to `{metas: []}`; otherwise the core pipeline runs, and a non-empty result
bumps the TypeStats counter for `(lsid, type)`. -/
def catalogStep (metaOf : String → String → Option Meta) (idsOf : String → List String)
    (listOf : String → String → Option ListRec) (oops : Bool)
    (type catalogId : String) (ex : Extras)
    (stats : CacheMap TypeStats) (now : Nat) : Resp × CacheMap TypeStats :=
  if oops then (⟨200, []⟩, stats)
  else if ¬ (type = "movie" ∨ type = "series") then (⟨200, []⟩, stats)
  else
    match parseCatalogId catalogId with
    | none => (⟨200, []⟩, stats)
    | some (_uidFromId, lsid) =>
      let listRec := catalogGhostList listOf catalogId
      let metas := handleCatalogCore metaOf (idsOf lsid) listRec type ex
      let stats' :=
        if metas.length > 0 then bumpStats stats now lsid type metas.length else stats
      (⟨200, metas⟩, stats')

/-- The main server's routes, at the level needed to compare response statuses:
the manifest, the catalog handler, and the four list-management endpoints.
`oops` flags model internal exceptions reaching the handler's own
`try`/`catch` (the handlers without a flag set their status unconditionally). -/
inductive AppReq : Type
  | manifest : AppReq
  | catalog : String → String → Extras → Bool → AppReq
  | listsGet : AppReq
  | listsAdd : Option String → Bool → AppReq
  | listsPatch : AppReq
  | listsDelete : AppReq

/-- Leftmost match of `/ls\d{6,}/i`, lower-cased (the digit run is maximal). -/
def findLs : List Char → Option (List Char)
  | [] => none
  | c :: cs =>
    if c = 'l' ∨ c = 'L' then
      match cs with
      | c2 :: rest =>
        if (c2 = 's' ∨ c2 = 'S') ∧ (rest.takeWhile Char.isDigit).length ≥ 6
        then some ('l' :: 's' :: rest.takeWhile Char.isDigit)
        else findLs cs
      | [] => none
    else findLs cs

/-- Full-string test `/^ls\d{6,}$/i`. -/
def isValidLsid (s : String) : Bool :=
  match s.data with
  | l :: s2 :: rest =>
    (l = 'l' ∨ l = 'L') ∧ (s2 = 's' ∨ s2 = 'S') ∧ rest.length ≥ 6 ∧ rest.all Char.isDigit
  | _ => false

/-- Status of `POST /api/user/:uid/lists`: 400 for a missing/blank `src` or an
unextractable/invalid list id, 500 if the handler body throws, else 200. -/
def addListStatus (src : Option String) (oops : Bool) : Nat :=
  if oops then 500
  else
    match src with
    | none => 400
    | some s0 =>
      let srcRaw := trimS s0
      if srcRaw = "" then 400
      else
        let lsid := jsLowerS ⟨((findLs srcRaw.data).getD srcRaw.data)⟩
        if isValidLsid lsid then 200 else 400

/-- The response status of each route of the main server. -/
def appStatus (metaOf : String → String → Option Meta) (idsOf : String → List String)
    (listOf : String → String → Option ListRec)
    (stats : CacheMap TypeStats) (now : Nat) : AppReq → Nat
  | AppReq.manifest => 200
  | AppReq.catalog type catalogId ex oops =>
    (catalogStep metaOf idsOf listOf oops type catalogId ex stats now).1.status
  | AppReq.listsGet => 200
  | AppReq.listsAdd src oops => addListStatus src oops
  | AppReq.listsPatch => 200
  | AppReq.listsDelete => 200

/-- Is the request a list-management mutation (the add-list endpoint, the only
handler that sets non-200 statuses)? -/
def isListAddReq : AppReq → Bool
  | AppReq.listsAdd _ _ => true
  | _ => false

example : parseCatalogId "imdb-default-ls4103816671-movies" = some ("default", "ls4103816671") := by decide
example : parseCatalogId "catalog-junk" = none := by decide
example : addListStatus (some "https://example.com/list/ls4103816671/?foo=bar") false = 200 := by decide
example : addListStatus (some "not-a-list") false = 400 := by decide

/-! # Claims -/

/-- C10 (counterexample): the claim says a negative requested limit falls back
to the default of 50; in the code `parseInt('-5') = -5` is truthy, so the
fallback is skipped and the clamp `Math.max(1, Math.min(80, -5))` yields 1. -/
theorem C10_counterexample : jsParseInt "-5" = some (-5) ∧ effLimit "-5" = 1 ∧ (1 : Int) ≠ 50 := by
  refine ⟨by decide, by decide, by decide⟩

/-- C10 (amended): the effective catalog limit is always in [1, 80]; an absent,
non-numeric or zero limit falls back to the default 50; a negative limit is
clamped up to 1 (not to the default); a limit above 80 is clamped down to 80;
an in-range limit is taken as requested. -/
theorem C10_amended_limit_clamp : ∀ s : String,
    (1 ≤ effLimit s ∧ effLimit s ≤ 80) ∧
    (s = "" ∨ jsParseInt s = none ∨ jsParseInt s = some 0 → effLimit s = 50) ∧
    (∀ n : Int, jsParseInt s = some n → n < 0 → effLimit s = 1) ∧
    (∀ n : Int, jsParseInt s = some n → 80 < n → effLimit s = 80) ∧
    (∀ n : Int, jsParseInt s = some n → 1 ≤ n → n ≤ 80 → effLimit s = n) := by
  intro s
  by_cases hs : s = ""
  · subst hs
    refine ⟨by decide, fun _ => by decide, ?_, ?_, ?_⟩
    · intro n hn; rw [show jsParseInt "" = none from by decide] at hn; exact absurd hn (by simp)
    · intro n hn; rw [show jsParseInt "" = none from by decide] at hn; exact absurd hn (by simp)
    · intro n hn; rw [show jsParseInt "" = none from by decide] at hn; exact absurd hn (by simp)
  · cases h : jsParseInt s with
    | none =>
      have he : effLimit s = 50 := by simp [effLimit, hs, h]
      refine ⟨by omega, fun _ => he, ?_, ?_, ?_⟩
      · intro n hn; simp at hn
      · intro n hn; simp at hn
      · intro n hn; simp at hn
    | some n =>
      by_cases h0 : n = 0
      · subst h0
        have he : effLimit s = 50 := by simp [effLimit, hs, h]
        refine ⟨by omega, fun _ => he, ?_, ?_, ?_⟩
        · intro m hm hneg
          have : m = 0 := by simpa using hm.symm
          omega
        · intro m hm hgt
          have : m = 0 := by simpa using hm.symm
          omega
        · intro m hm h1 h2
          have : m = 0 := by simpa using hm.symm
          omega
      · have he : effLimit s = max 1 (min 80 n) := by
          simp only [effLimit, hs, if_false, h]
        refine ⟨by rw [he]; omega, ?_, ?_, ?_, ?_⟩
        · intro hc
          rcases hc with hc | hc | hc
          · exact absurd hc hs
          · simp at hc
          · have : n = 0 := by simpa using hc
            exact absurd this h0
        · intro m hm hneg
          have hmn : n = m := by simpa using hm
          rw [he]; omega
        · intro m hm hgt
          have hmn : n = m := by simpa using hm
          rw [he]; omega
        · intro m hm h1 h2
          have hmn : n = m := by simpa using hm
          rw [he]; omega

/-- C10 (witness): concrete instances of the amended clamp behaviour. -/
theorem C10_amended_limit_clamp_witness :
    effLimit "-5" = 1 ∧ effLimit "200" = 80 ∧ effLimit "abc" = 50 ∧ effLimit "25" = 25 := by
  refine ⟨(C10_amended_limit_clamp "-5").2.2.1 (-5) (by decide) (by decide),
          (C10_amended_limit_clamp "200").2.2.2.1 200 (by decide) (by decide),
          (C10_amended_limit_clamp "abc").2.1 (Or.inr (Or.inl (by decide))),
          (C10_amended_limit_clamp "25").2.2.2.2 25 (by decide) (by decide) (by decide)⟩

/-- An item tagged only with the compound genre label as an array element. -/
def c6ArrItem : Meta :=
  { Meta.mk0 with id := "tt0000003", name := "CompoundArr", genres := GenreField.arr ["Sci-Fi & Fantasy"] }

/-- An item tagged only with the compound genre label as a string field. -/
def c6StrItem : Meta :=
  { Meta.mk0 with id := "tt0000009", name := "CompoundStr", genres := GenreField.str "Sci-Fi & Fantasy" }

/-- C6 (counterexample): for an array-valued raw genre field containing the
compound label `"Sci-Fi & Fantasy"`, `explodeToCanonicalSet` does not split it:
normalization maps the hyphen to a space (`"sci fi & fantasy"`), which misses
both the alias table (whose key is `'sci-fi & fantasy'`) and the expand table,
so the mangled compound label itself is returned and a `genre=Fantasy` query
fails to match an item tagged only with that compound label. -/
theorem C6_counterexample :
    explodeToCanonicalSet (GenreField.arr ["Sci-Fi & Fantasy"]) = ["Sci Fi & Fantasy"] ∧
    explodeToCanonicalSet (GenreField.arr ["Sci-Fi & Fantasy"]) ≠ ["Sci-Fi", "Fantasy"] ∧
    ¬ "Fantasy" ∈ explodeToCanonicalSet (GenreField.arr ["Sci-Fi & Fantasy"]) ∧
    genreFilter "Fantasy" [c6ArrItem] = [] := by
  refine ⟨by decide, by decide, by decide, by decide⟩

/-- C6 (amended): for a string-valued raw genre field the compound genres are
split at the delimiter and explode to exactly their constituent canonical
genres, never the compound label itself; an array element `"Action & Adventure"`
also expands (its normalized key is an alias-table hit), while an array element
`"Sci-Fi & Fantasy"` does not (see the counterexample); and a `genre=Fantasy`
query matches an item whose genre field is the compound string, because
filtering tests intersection of exploded sets. -/
theorem C6_amended_explode :
    explodeToCanonicalSet (GenreField.str "Sci-Fi & Fantasy") = ["Sci-Fi", "Fantasy"] ∧
    ¬ "Sci-Fi & Fantasy" ∈ explodeToCanonicalSet (GenreField.str "Sci-Fi & Fantasy") ∧
    explodeToCanonicalSet (GenreField.str "Action & Adventure") = ["Action", "Adventure"] ∧
    explodeToCanonicalSet (GenreField.str "Action and Adventure") = ["Action", "Adventure"] ∧
    explodeToCanonicalSet (GenreField.arr ["Action & Adventure"]) = ["Action", "Adventure"] ∧
    genreItemMatches "Fantasy" c6StrItem = true ∧
    genreFilter "Fantasy" [c6StrItem] = [c6StrItem] := by
  refine ⟨by decide, by decide, by decide, by decide, by decide, by decide, by decide⟩

/-! ### C5 / C4: the `name` and `rating` sorts of `sortMetas` -/

/-- The `name`-sort key comparator of `sortMetas`. -/
def nameCmpK (a b : Meta) : Int := lcCmp (nameKeyL a) (nameKeyL b)

theorem nameCmpK_neg (a b : Meta) : nameCmpK a b = -(nameCmpK b a) :=
  lcCmp_neg (nameKeyL a) (nameKeyL b)

theorem nameCmpK_trans (a b c : Meta) :
    nameCmpK a b ≤ 0 → nameCmpK b c ≤ 0 → nameCmpK a c ≤ 0 :=
  lcCmp_trans_nonpos (nameKeyL a) (nameKeyL b) (nameKeyL c)

/-- Two metas whose display names differ only in case and whose ids order
opposite to their raw names: a tie under the case-insensitive key. -/
def c5x : Meta := { Meta.mk0 with id := "b", name := "apple" }

def c5y : Meta := { Meta.mk0 with id := "a", name := "Apple" }

/-- C5 (counterexample): `sortMetas` breaks `name` ties by original input
position, not by raw case-sensitive name and id. Under the claimed tie-break
`"Apple"` (raw-name smaller) would precede `"apple"` in both input orders;
instead each input permutation is returned unchanged, so the resulting order
depends on the input permutation. -/
theorem C5_counterexample :
    sortMetas [c5x, c5y] "name" "asc" = [c5x, c5y] ∧
    sortMetas [c5y, c5x] "name" "asc" = [c5y, c5x] ∧
    nameKeyL c5x = nameKeyL c5y ∧
    lcCmp c5y.name.data c5x.name.data < 0 ∧
    c5x ≠ c5y := by
  refine ⟨by decide, by decide, by decide, by decide, by decide⟩

/-- C5 (amended): sorting by `name` compares display names case-insensitively
with a leading article stripped for comparison only — the output is a
permutation of the input, so stored names are unchanged — and ties are broken
by original input position (stable), not by raw name and id: the
index-annotated output is strictly sorted by (stripped lower-cased name,
original position). -/
theorem C5_amended_name_sort : ∀ arr : List Meta,
    (sortMetas arr "name" "asc").Perm arr ∧
    sortMetas arr "name" "asc" = (sortPairs nameCmpK 1 arr).map Prod.fst ∧
    (sortPairs nameCmpK 1 arr).Pairwise
      (fun p q => nameCmpK p.1 q.1 < 0 ∨ (nameCmpK p.1 q.1 = 0 ∧ p.2 < q.2)) := by
  intro arr
  have heq : sortMetas arr "name" "asc" = sortedByKey nameCmpK 1 arr := rfl
  refine ⟨heq ▸ sortedByKey_perm nameCmpK 1 arr, heq, ?_⟩
  have hs := @sortPairs_pairwise_strictLex nameCmpK 1
    nameCmpK_neg nameCmpK_trans (Or.inl rfl) arr
  refine hs.imp ?_
  intro p q h
  rcases h with h | h
  · unfold strictLex at *
    left
    omega
  · exact Or.inr h

/-- Uniqueness of strictly-sorted permutations: for a key comparator with
pairwise-distinct values on the list, the descending sort is exactly the
reverse of the ascending sort. -/
theorem sortedByKey_desc_eq_reverse_asc {kcmp : Meta → Meta → Int}
    (hA : ∀ a b, kcmp a b = -(kcmp b a))
    (hT : ∀ a b c, kcmp a b ≤ 0 → kcmp b c ≤ 0 → kcmp a c ≤ 0)
    (arr : List Meta) (hdist : arr.Pairwise (fun a b => kcmp a b ≠ 0)) :
    sortedByKey kcmp (-1) arr = (sortedByKey kcmp 1 arr).reverse := by
  have hsym : ∀ {p q : Meta × Nat}, kcmp p.1 q.1 ≠ 0 → kcmp q.1 p.1 ≠ 0 := by
    intro p q h
    have := hA p.1 q.1
    omega
  have hd1 : (sortPairs kcmp 1 arr).Pairwise (fun p q => kcmp p.1 q.1 ≠ 0) :=
    ((sortPairs_perm kcmp 1 arr).pairwise_iff hsym).mpr (pairwise_withIdx_of_pairwise hdist)
  have hdm : (sortPairs kcmp (-1) arr).Pairwise (fun p q => kcmp p.1 q.1 ≠ 0) :=
    ((sortPairs_perm kcmp (-1) arr).pairwise_iff hsym).mpr (pairwise_withIdx_of_pairwise hdist)
  have hs1 : (sortPairs kcmp 1 arr).Pairwise (fun p q => kcmp p.1 q.1 < 0) := by
    have hh := (sortPairs_pairwise_strictLex hA hT (Or.inl rfl) arr).and hd1
    refine hh.imp ?_
    intro p q h
    rcases h with ⟨hl | hl, hne⟩
    · unfold strictLex at *
      omega
    · exact absurd hl.1 hne
  have hsm : (sortPairs kcmp (-1) arr).Pairwise (fun p q => 0 < kcmp p.1 q.1) := by
    have hh := (sortPairs_pairwise_strictLex hA hT (Or.inr rfl) arr).and hdm
    refine hh.imp ?_
    intro p q h
    rcases h with ⟨hl | hl, hne⟩
    · unfold strictLex at *
      omega
    · exact absurd hl.1 hne
  have hA1 : (sortedByKey kcmp 1 arr).Pairwise (fun a b => kcmp a b < 0) :=
    List.pairwise_map.mpr hs1
  have hAm : (sortedByKey kcmp (-1) arr).Pairwise (fun a b => 0 < kcmp a b) :=
    List.pairwise_map.mpr hsm
  have hArev : ((sortedByKey kcmp 1 arr).reverse).Pairwise (fun a b => 0 < kcmp a b) := by
    rw [List.pairwise_reverse]
    refine hA1.imp ?_
    intro a b h
    have := hA a b
    omega
  have hperm : (sortedByKey kcmp (-1) arr).Perm ((sortedByKey kcmp 1 arr).reverse) :=
    (sortedByKey_perm kcmp (-1) arr).trans
      ((sortedByKey_perm kcmp 1 arr).symm.trans (List.reverse_perm _).symm)
  haveI : IsAntisymm Meta (fun a b => 0 < kcmp a b) := by
    refine ⟨fun a b h1 h2 => ?_⟩
    have := hA a b
    omega
  exact List.eq_of_perm_of_sorted hperm hAm hArev

/-- C4: for items with pairwise-distinct rating values, sorting by `rating`
descending yields exactly the reverse of sorting the same set ascending. -/
theorem C4_rating_desc_reverse_asc (arr : List Meta)
    (hdist : arr.Pairwise (fun a b => getRating a ≠ getRating b)) :
    sortMetas arr "rating" "desc" = (sortMetas arr "rating" "asc").reverse := by
  have h1 : sortMetas arr "rating" "desc" =
      sortedByKey (fun a b => getRating a - getRating b) (-1) arr := rfl
  have h2 : sortMetas arr "rating" "asc" =
      sortedByKey (fun a b => getRating a - getRating b) 1 arr := rfl
  rw [h1, h2]
  refine sortedByKey_desc_eq_reverse_asc ?_ ?_ arr ?_
  · intro a b
    omega
  · intro a b c ha hb
    omega
  · refine hdist.imp ?_
    intro a b h
    omega

def c4a : Meta := { Meta.mk0 with id := "tt1", name := "A", imdbRating := 50 }

def c4b : Meta := { Meta.mk0 with id := "tt2", name := "B", imdbRating := 81 }

def c4c : Meta := { Meta.mk0 with id := "tt3", name := "C", imdbRating := 66 }

/-- C4 (witness): the reversal law at a concrete three-item set with distinct
ratings. -/
theorem C4_rating_desc_reverse_asc_witness :
    sortMetas [c4a, c4b, c4c] "rating" "desc" =
      (sortMetas [c4a, c4b, c4c] "rating" "asc").reverse :=
  C4_rating_desc_reverse_asc [c4a, c4b, c4c] (by decide)

/-! ### C1: series presence suppresses movie classification -/

/-- C1: if the series-bucket metadata resolves for an id, then (i) the typed
movie lookup `getTypedMetaDeterministic('movie', id)` returns null in the same
cache state, (ii) the classifier commits an id with both metas present to the
series bucket, and (iii) the id contributes nothing to any movie-bucket
`typedPage` result set: removing it from the id list leaves the page
unchanged. -/
theorem C1_series_suppresses_movie :
    (∀ (fetch : String → String → FetchRes) (now : Nat) (st : MetaFetchState) (tt : String)
        (s : Meta),
      (getMetaM fetch now st "series" tt).1 = some s →
      (getTypedMetaDeterministicM fetch now st "movie" tt).1 = none) ∧
    (∀ (cin : String → String → Option Meta) (parentOf : String → Option String)
        (ttypeOf : String → Option String) (imv : Bool) (tt : String) (m s : Meta),
      cin "movie" tt = some m → cin "series" tt = some s →
      classifyId cin parentOf ttypeOf imv tt = ⟨tt, "series", some s, none, none⟩) ∧
    (∀ (metaOf : String → String → Option Meta) (tt : String) (s : Meta),
      metaOf "series" tt = some s →
      ∀ (l1 l2 : List String) (skip limit : Int) (q : String),
        typedPage metaOf "movie" (l1 ++ tt :: l2) skip limit q =
        typedPage metaOf "movie" (l1 ++ l2) skip limit q) := by
  refine ⟨?_, ?_, ?_⟩
  · intro fetch now st tt s h
    unfold getTypedMetaDeterministicM
    simp only [if_pos rfl, h]
    simp
  · intro cin parentOf ttypeOf imv tt m s hm hs
    unfold classifyId
    simp [hm, hs]
  · intro metaOf tt s h l1 l2 skip limit q
    have hslot : ∀ searchL, typedSlot metaOf "movie" searchL tt = none := by
      intro searchL
      unfold typedSlot getTypedMetaDeterministicP
      simp [h]
    unfold typedPage
    simp only [List.filterMap_append, List.filterMap_cons, hslot]

/-- A resolver placing series metadata on `tt0000002`. -/
def c1Env : String → String → Option Meta := fun bucket tt =>
  if bucket = "series" ∧ tt = "tt0000002" then
    some { Meta.mk0 with id := "tt0000002", name := "SomeShow", type := "series" }
  else if bucket = "movie" ∧ tt = "tt0000002" then
    some { Meta.mk0 with id := "tt0000002", name := "SomeShow", type := "movie" }
  else none

/-- The corresponding fetch environment for the stateful layer. -/
def c1Fetch : String → String → FetchRes := fun bucket tt =>
  match c1Env bucket tt with
  | some m => FetchRes.got m
  | none => FetchRes.httpErr

/-- C1 (witness): all three parts at a concrete id carrying both metas. -/
theorem C1_series_suppresses_movie_witness :
    (getTypedMetaDeterministicM c1Fetch 0 ⟨[], 0⟩ "movie" "tt0000002").1 = none ∧
    classifyId c1Env (fun _ => none) (fun _ => none) false "tt0000002" =
      ⟨"tt0000002", "series", some { Meta.mk0 with id := "tt0000002", name := "SomeShow", type := "series" }, none, none⟩ ∧
    typedPage c1Env "movie" (["tt0000008"] ++ "tt0000002" :: ["tt0000007"]) 0 80 "" =
      typedPage c1Env "movie" (["tt0000008"] ++ ["tt0000007"]) 0 80 "" := by
  refine ⟨?_, ?_, ?_⟩
  · exact C1_series_suppresses_movie.1 c1Fetch 0 ⟨[], 0⟩ "tt0000002"
      { Meta.mk0 with id := "tt0000002", name := "SomeShow", type := "series" } (by decide)
  · exact C1_series_suppresses_movie.2.1 c1Env (fun _ => none) (fun _ => none) false "tt0000002"
      { Meta.mk0 with id := "tt0000002", name := "SomeShow", type := "movie" }
      { Meta.mk0 with id := "tt0000002", name := "SomeShow", type := "series" }
      (by decide) (by decide)
  · exact C1_series_suppresses_movie.2.2 c1Env "tt0000002"
      { Meta.mk0 with id := "tt0000002", name := "SomeShow", type := "series" } (by decide)
      ["tt0000008"] ["tt0000007"] 0 80 ""

/-! ### C2: home-only ghosting gate -/

/-- C2: for a (list, type) configured home-only (home = true, discover =
false), any query carrying a non-`Top` genre or a non-empty (trimmed) search
returns `{metas: []}`, while the same catalog with no genre and no search
returns its normal unfiltered pipeline result (the gate is a no-op). -/
theorem C2_home_only_gate :
    ∀ (metaOf : String → String → Option Meta) (ids : List String) (l : ListRec)
      (type : String) (ex : Extras),
    (tVisOf l type).home = true → (tVisOf l type).discover = false →
    (((ex.genre ≠ "" ∧ jsLowerS ex.genre ≠ "top") ∨ trimS ex.search ≠ "") →
      handleCatalogCore metaOf ids l type ex = []) ∧
    (handleCatalogCore metaOf ids l type { ex with genre := "", search := "" } =
      catalogPipeline metaOf ids type { ex with genre := "", search := "" }) := by
  intro metaOf ids l type ex hhome hdisc
  have hH : isHomeOnlyOf l type = true := by
    unfold isHomeOnlyOf
    rw [hhome, hdisc]
    rfl
  constructor
  · intro hcond
    have hgate : gateBlocked l type ex = true := by
      unfold gateBlocked
      rw [hH]
      simp only [Bool.true_and, Bool.or_eq_true, decide_eq_true_eq, Bool.and_eq_true]
      rcases hcond with ⟨hg1, hg2⟩ | hs
      · left
        rw [if_neg hg1]
        exact hg2
      · right
        refine ⟨?_, hs⟩
        intro he
        apply hs
        rw [he]
        rfl
    unfold handleCatalogCore
    rw [hgate]
    rfl
  · have hgate : gateBlocked l type { ex with genre := "", search := "" } = false := by
      unfold gateBlocked
      simp only [Bool.and_eq_false_iff, Bool.or_eq_false_iff]
      right
      constructor
      · simp only [decide_eq_false_iff_not, ne_eq, not_not]
        decide
      · simp
    unfold handleCatalogCore
    rw [hgate]
    rfl

/-- A list configured home-only for both types. -/
def c2List : ListRec := ⟨"", some ⟨⟨false, true⟩, ⟨false, true⟩⟩⟩

/-- A query carrying `genre=Comedy`. -/
def c2ExGenre : Extras := ⟨"", "", "", "Comedy", "", ""⟩

/-- C2 (witness): the gate at a concrete home-only catalog: `genre=Comedy`
yields the empty result, and the genre-less query equals the plain pipeline. -/
theorem C2_home_only_gate_witness :
    (tVisOf c2List "movie").home = true ∧
    (tVisOf c2List "movie").discover = false ∧
    handleCatalogCore c1Env ["tt0000002"] c2List "movie" c2ExGenre = [] ∧
    handleCatalogCore c1Env ["tt0000002"] c2List "movie"
        { c2ExGenre with genre := "", search := "" } =
      catalogPipeline c1Env ["tt0000002"] "movie"
        { c2ExGenre with genre := "", search := "" } := by
  refine ⟨by decide, by decide, ?_, ?_⟩
  · exact (C2_home_only_gate c1Env ["tt0000002"] c2List "movie" c2ExGenre
      (by decide) (by decide)).1 (Or.inl ⟨by decide, by decide⟩)
  · exact (C2_home_only_gate c1Env ["tt0000002"] c2List "movie" c2ExGenre
      (by decide) (by decide)).2

/-- A movie tagged Comedy, for exercising the genre-filtered path. -/
def c2Movie : Meta :=
  { Meta.mk0 with id := "tt0000010", name := "FunnyFilm", type := "movie", genres := GenreField.arr ["Comedy"] }

/-- A resolver placing only `c2Movie` in the movie bucket. -/
def c2MetaOf : String → String → Option Meta := fun bucket tt =>
  if bucket = "movie" ∧ tt = "tt0000010" then some c2Movie else none

/-- The id list of `ls123`. -/
def c2IdsOf : String → List String := fun lsid =>
  if lsid = "ls123" then ["tt0000010"] else []

/-- The user store of the counterexample: user `john-doe` owns list `ls123`,
configured home-only for both types. -/
def c2HyphenListOf : String → String → Option ListRec := fun uid lsid =>
  if uid = "john-doe" ∧ lsid = "ls123" then some c2List else none

/-- C2 (counterexample): the claim fails at the response level for a uid
containing a hyphen. The catalog id `imdb-john-doe-ls123-movies` regex-parses
to uid `john-doe`, lsid `ls123`, whose owner configured the list home-only;
but the ghosting block re-derives uid and lsid by `catalogId.split('-')`
(components 1 and 2), consults user `john`, list `doe`, finds nothing,
degrades to the empty record (not home-only), and serves the genre-filtered
result: the `genre=Comedy` query returns a non-empty page instead of
`{metas: []}`. -/
theorem C2_counterexample :
    parseCatalogId "imdb-john-doe-ls123-movies" = some ("john-doe", "ls123") ∧
    c2HyphenListOf "john-doe" "ls123" = some c2List ∧
    (tVisOf c2List "movie").home = true ∧
    (tVisOf c2List "movie").discover = false ∧
    catalogGhostList c2HyphenListOf "imdb-john-doe-ls123-movies" = ⟨"", none⟩ ∧
    (catalogStep c2MetaOf c2IdsOf c2HyphenListOf false "movie"
        "imdb-john-doe-ls123-movies" c2ExGenre [] 0).1.metas = [c2Movie] ∧
    [c2Movie] ≠ ([] : List Meta) := by
  refine ⟨by decide, by decide, by decide, by decide, by decide, by decide, by decide⟩

/-- C2 (amended): the home-only gate is applied to the list record the handler
actually consults — the ghosting block re-derives uid and lsid by splitting
the catalog id on `-`, which equals the owner's record exactly when the uid
contains no hyphen. Whenever that consulted (list, type) record is home-only,
any query carrying a non-`Top` genre or a non-empty (trimmed) search term
receives `{metas: []}` with status 200, while the same catalog queried with no
genre and no search receives its normal unfiltered pipeline result. -/
theorem C2_amended_home_only_gate :
    ∀ (metaOf : String → String → Option Meta) (idsOf : String → List String)
      (listOf : String → String → Option ListRec) (stats : CacheMap TypeStats)
      (now : Nat) (type catalogId : String) (ex : Extras) (uid lsid : String),
    (type = "movie" ∨ type = "series") →
    parseCatalogId catalogId = some (uid, lsid) →
    (tVisOf (catalogGhostList listOf catalogId) type).home = true →
    (tVisOf (catalogGhostList listOf catalogId) type).discover = false →
    (((ex.genre ≠ "" ∧ jsLowerS ex.genre ≠ "top") ∨ trimS ex.search ≠ "") →
      (catalogStep metaOf idsOf listOf false type catalogId ex stats now).1 = ⟨200, []⟩) ∧
    ((catalogStep metaOf idsOf listOf false type catalogId
        { ex with genre := "", search := "" } stats now).1.metas =
      catalogPipeline metaOf (idsOf lsid) type { ex with genre := "", search := "" }) := by
  intro metaOf idsOf listOf stats now type catalogId ex uid lsid htype hparse hhome hdisc
  have hcore := C2_home_only_gate metaOf (idsOf lsid) (catalogGhostList listOf catalogId)
    type ex hhome hdisc
  constructor
  · intro hcond
    have h0 := hcore.1 hcond
    unfold catalogStep
    simp only [Bool.false_eq_true, if_false, if_neg (not_not_intro htype), hparse, h0]
  · unfold catalogStep
    simp only [Bool.false_eq_true, if_false, if_neg (not_not_intro htype), hparse]
    exact hcore.2

/-- The user store of the witness: user `u1` (no hyphen) owns list `ls123`,
configured home-only. -/
def c2WListOf : String → String → Option ListRec := fun uid lsid =>
  if uid = "u1" ∧ lsid = "ls123" then some c2List else none

/-- C2 (amended, witness): for a hyphen-free uid the split-derived lookup finds
the owner's home-only record, so `genre=Comedy` receives `{metas: []}` and the
plain query receives the pipeline result. -/
theorem C2_amended_home_only_gate_witness :
    (catalogStep c2MetaOf c2IdsOf c2WListOf false "movie" "imdb-u1-ls123-movies"
        c2ExGenre [] 0).1 = ⟨200, []⟩ ∧
    (catalogStep c2MetaOf c2IdsOf c2WListOf false "movie" "imdb-u1-ls123-movies"
        { c2ExGenre with genre := "", search := "" } [] 0).1.metas =
      catalogPipeline c2MetaOf (c2IdsOf "ls123") "movie"
        { c2ExGenre with genre := "", search := "" } := by
  have h := C2_amended_home_only_gate c2MetaOf c2IdsOf c2WListOf [] 0 "movie"
    "imdb-u1-ls123-movies" c2ExGenre "u1" "ls123"
    (Or.inl rfl) (by decide) (by decide) (by decide)
  exact ⟨h.1 (Or.inl ⟨by decide, by decide⟩), h.2⟩

/-! ### C3: pagination algebra -/

/-- C3: with identical filter and sort parameters, the page `skip=0,limit=20`
concatenated with the page `skip=20,limit=20` equals the page
`skip=0,limit=40`, both for the catalog handler (whose over-fetch cap
`max(limit+skip, 80)` is 80 in all three queries) and for
`applySearchAndSort`; and a skip at or beyond the end of the filtered,
sorted set yields an empty page rather than an error. -/
theorem C3_pagination :
    ∀ (metaOf : String → String → Option Meta) (ids : List String) (l : ListRec)
      (type : String) (ex : Extras),
    (handleCatalogCore metaOf ids l type { ex with skip := "0", limit := "20" } ++
       handleCatalogCore metaOf ids l type { ex with skip := "20", limit := "20" } =
     handleCatalogCore metaOf ids l type { ex with skip := "0", limit := "40" }) ∧
    (∀ (items : List Meta) (search sort ord : String),
      applySearchAndSort items search sort ord 0 20 ++
        applySearchAndSort items search sort ord 20 20 =
      applySearchAndSort items search sort ord 0 40) ∧
    ((catalogPreSlice metaOf ids type ex).length ≤ (effSkip ex.skip).toNat →
      handleCatalogCore metaOf ids l type ex = []) ∧
    (∀ (items : List Meta) (search sort ord : String) (skip : Nat) (limit : Int),
      (aSASpre items search sort ord).length ≤ skip →
      applySearchAndSort items search sort ord skip limit = []) := by
  intro metaOf ids l type ex
  have e20 : effLimit "20" = 20 := by decide
  have e40 : effLimit "40" = 40 := by decide
  have s0 : effSkip "0" = 0 := by decide
  have s20 : effSkip "20" = 20 := by decide
  refine ⟨?_, ?_, ?_, ?_⟩
  · have hg : ∀ a b : String, gateBlocked l type { ex with skip := a, limit := b } =
        gateBlocked l type ex := fun a b => rfl
    by_cases hb : gateBlocked l type ex = true
    · unfold handleCatalogCore
      simp [hg, hb]
    · have hb' : gateBlocked l type ex = false := by
        cases hq : gateBlocked l type ex
        · rfl
        · exact absurd hq hb
      have hpre1 : catalogPreSlice metaOf ids type { ex with skip := "0", limit := "20" } =
          catalogPreSlice metaOf ids type { ex with skip := "20", limit := "20" } := by
        unfold catalogPreSlice
        simp only [e20, s0, s20]
        norm_num
      have hpre3 : catalogPreSlice metaOf ids type { ex with skip := "0", limit := "20" } =
          catalogPreSlice metaOf ids type { ex with skip := "0", limit := "40" } := by
        unfold catalogPreSlice
        simp only [e20, e40, s0]
        norm_num
      unfold handleCatalogCore
      simp only [hg, hb', Bool.false_eq_true, if_false]
      unfold catalogPipeline
      rw [← hpre1, ← hpre3]
      have t0 : ((0 : Int)).toNat = 0 := rfl
      have t20 : ((20 : Int)).toNat = 20 := rfl
      have t40 : ((40 : Int)).toNat = 40 := rfl
      simp only [s0, s20, e20, e40, t0, t20, t40, List.drop_zero]
      rw [show (40 : Nat) = 20 + 20 from rfl, List.take_add]
  · intro items search sort ord
    unfold applySearchAndSort
    simp only [List.drop_zero]
    have h20 : (((0 : Int) ⊔ (if (20 : Int) = 0 then 50 else 20) ⊓ 500)).toNat = 20 := by decide
    have h40 : (((0 : Int) ⊔ (if (40 : Int) = 0 then 50 else 40) ⊓ 500)).toNat = 40 := by decide
    rw [h20, h40]
    rw [show (40 : Nat) = 20 + 20 from rfl, List.take_add]
  · intro hlen
    unfold handleCatalogCore
    by_cases hb : gateBlocked l type ex = true
    · rw [hb]
      rfl
    · have hb' : gateBlocked l type ex = false := by
        cases hq : gateBlocked l type ex
        · rfl
        · exact absurd hq hb
      rw [hb']
      simp only [if_false, Bool.false_eq_true]
      unfold catalogPipeline
      rw [List.drop_eq_nil_of_le hlen]
      exact List.take_nil
  · intro items search sort ord skip limit hlen
    unfold applySearchAndSort
    rw [List.drop_eq_nil_of_le hlen]
    exact List.take_nil

/-- C3 (witness): the concatenation law and the out-of-range-skip law at
concrete inputs. -/
theorem C3_pagination_witness :
    (handleCatalogCore c1Env ["tt0000002"] c2List "movie"
        { Extras.none0 with skip := "0", limit := "20" } ++
      handleCatalogCore c1Env ["tt0000002"] c2List "movie"
        { Extras.none0 with skip := "20", limit := "20" } =
      handleCatalogCore c1Env ["tt0000002"] c2List "movie"
        { Extras.none0 with skip := "0", limit := "40" }) ∧
    ((catalogPreSlice c1Env ["tt0000002"] "movie" { Extras.none0 with skip := "999" }).length ≤
        (effSkip "999").toNat) ∧
    handleCatalogCore c1Env ["tt0000002"] c2List "movie" { Extras.none0 with skip := "999" } = [] ∧
    applySearchAndSort [c4a] "" "" "" 5 20 = [] := by
  refine ⟨(C3_pagination c1Env ["tt0000002"] c2List "movie" Extras.none0).1, by decide, ?_, ?_⟩
  · exact (C3_pagination c1Env ["tt0000002"] c2List "movie"
      { Extras.none0 with skip := "999" }).2.2.1 (by decide)
  · exact (C3_pagination c1Env ["tt0000002"] c2List "movie" Extras.none0).2.2.2
      [c4a] "" "" "" 5 20 (by decide)

/-! ### C7: TypeStats monotonicity -/

theorem cacheFind_cacheSet_self {α : Type} (mem : CacheMap α) (key : String) (v : α)
    (exp : Nat) : cacheFind (cacheSet mem key v exp) key = some (v, exp) := by
  induction mem with
  | nil => simp [cacheSet, cacheFind, List.find?]
  | cons e t ih =>
    unfold cacheSet
    by_cases h : e.1 = key
    · rw [if_pos h]
      simp [cacheFind, List.find?]
    · rw [if_neg h]
      unfold cacheFind at ih ⊢
      rw [List.find?_cons_of_neg]
      · exact ih
      · simp [h]

theorem getCacheM_setCacheM_get {α : Type} (mem : CacheMap α) (key : String) (v : α)
    (ttlSec now now2 : Nat) (h : now2 ≤ now + ttlSec * 1000) :
    getCacheM (setCacheM mem key v ttlSec now) key now2 =
      (some v, setCacheM mem key v ttlSec now) := by
  unfold getCacheM setCacheM
  rw [cacheFind_cacheSet_self]
  have hlt : ¬ (now + ttlSec * 1000 < now2) := by omega
  simp [hlt]

theorem getCacheM_eq_of_hit {α : Type} (mem : CacheMap α) (key : String) (now : Nat)
    (x : α) (h : (getCacheM mem key now).1 = some x) :
    getCacheM mem key now = (some x, mem) := by
  unfold getCacheM at h ⊢
  generalize hf : cacheFind mem key = r at h ⊢
  cases r with
  | none => simp at h
  | some p =>
    obtain ⟨v2, exp2⟩ := p
    by_cases he : exp2 ≠ 0 ∧ exp2 < now
    · simp [he] at h
    · simp only [he, if_false] at h ⊢
      have hvx : v2 = x := by simpa using h
      rw [hvx]

/-- The bump update law: after `bumpStats`, the stored counter for the
(normalized) type equals `max(previous || 0, countFound)`. -/
theorem readStats_bumpStats (mem : CacheMap TypeStats) (now : Nat) (lsid t : String)
    (c : Nat) :
    readStats (bumpStats mem now lsid t c) now lsid t =
      some (max ((readStats mem now lsid t).getD 0) c) := by
  unfold readStats bumpStats
  rw [getCacheM_setCacheM_get _ _ _ _ _ _ (by omega)]
  by_cases ht : t = "movie" <;>
    cases hc : (getCacheM mem ("stats:" ++ lsid) now).1 <;>
      simp [ht, hc]

/-- Bumping either type never lowers a set counter. -/
theorem readStats_after_bump (mem : CacheMap TypeStats) (now : Nat) (lsid t t2 : String)
    (c2 v : Nat) (hv : readStats mem now lsid t = some v) :
    ∃ v2, readStats (bumpStats mem now lsid t2 c2) now lsid t = some v2 ∧ v ≤ v2 := by
  unfold readStats at hv
  cases hc : (getCacheM mem ("stats:" ++ lsid) now).1 with
  | none => rw [hc] at hv; simp at hv
  | some s =>
    rw [hc] at hv
    unfold readStats bumpStats
    rw [getCacheM_setCacheM_get _ _ _ _ _ _ (by omega)]
    by_cases ht : t = "movie" <;> by_cases ht2 : t2 = "movie" <;>
      simp [ht, ht2, hc] at hv ⊢ <;> rw [hv] <;> simp

/-- Reading the stats record straight after a `setCache` of it. -/
theorem readStats_setCacheM (mem : CacheMap TypeStats) (lsid t : String)
    (st : TypeStats) (ttl now now2 : Nat) (h : now2 ≤ now + ttl * 1000) :
    readStats (setCacheM mem ("stats:" ++ lsid) st ttl now) now2 lsid t =
      (if t = "movie" then st.movie else st.series) := by
  unfold readStats
  rw [getCacheM_setCacheM_get _ _ _ _ _ _ h]

/-- Reading the stats record from a cache hit. -/
theorem readStats_of_hit (mem : CacheMap TypeStats) (now : Nat) (lsid t : String)
    (s : TypeStats) (hc : (getCacheM mem ("stats:" ++ lsid) now).1 = some s) :
    readStats mem now lsid t = (if t = "movie" then s.movie else s.series) := by
  unfold readStats
  simp only [hc]

/-- `hasType` never changes an already-set counter (it only fills a null
field and re-stores the record, preserving the other field). -/
theorem readStats_after_hasType (mem : CacheMap TypeStats) (now : Nat)
    (lsid t t2 : String) (probe : Bool) (v : Nat)
    (hv : readStats mem now lsid t = some v) :
    readStats (hasType mem now lsid t2 probe).2 now lsid t = some v := by
  unfold readStats at hv
  cases hc : (getCacheM mem ("stats:" ++ lsid) now).1 with
  | none =>
    simp only [hc] at hv
    exact absurd hv (by simp)
  | some s =>
    simp only [hc] at hv
    have hstate := getCacheM_eq_of_hit mem ("stats:" ++ lsid) now s hc
    simp only [hasType, hstate]
    by_cases ht2 : t2 = "movie"
    · simp only [ht2, reduceIte, Option.getD_some]
      cases hcur : s.movie with
      | some w =>
        show readStats mem now lsid t = some v
        rw [readStats_of_hit mem now lsid t s hc]
        exact hv
      | none =>
        show readStats (setCacheM mem ("stats:" ++ lsid)
          ⟨some (if probe then 1 else 0), s.series⟩ (12 * 3600) now) now lsid t = some v
        rw [readStats_setCacheM mem lsid t ⟨some (if probe then 1 else 0), s.series⟩
          (12 * 3600) now now (by omega)]
        by_cases ht : t = "movie"
        · rw [if_pos ht] at hv
          rw [hcur] at hv
          exact absurd hv (by simp)
        · rw [if_neg ht] at hv ⊢
          exact hv
    · simp only [ht2, reduceIte, Option.getD_some, if_neg ht2]
      cases hcur : s.series with
      | some w =>
        show readStats mem now lsid t = some v
        rw [readStats_of_hit mem now lsid t s hc]
        exact hv
      | none =>
        show readStats (setCacheM mem ("stats:" ++ lsid)
          ⟨s.movie, some (if probe then 1 else 0)⟩ (12 * 3600) now) now lsid t = some v
        rw [readStats_setCacheM mem lsid t ⟨s.movie, some (if probe then 1 else 0)⟩
          (12 * 3600) now now (by omega)]
        by_cases ht : t = "movie"
        · rw [if_pos ht] at hv ⊢
          exact hv
        · rw [if_neg ht] at hv
          rw [hcur] at hv
          exact absurd hv (by simp)

/-- C7: the TypeStats counter is monotonic within its TTL window: `bumpStats`
sets the counter to the max of its previous value and the reported length
(never lowering it), `hasType` never modifies an already-set counter, and a
non-empty catalog response bumps the counter for its (list, type) to the max
of the previous value and the page length. -/
theorem C7_stats_monotonic :
    ∀ (mem : CacheMap TypeStats) (now : Nat) (lsid t : String),
    (∀ c : Nat, readStats (bumpStats mem now lsid t c) now lsid t =
      some (max ((readStats mem now lsid t).getD 0) c)) ∧
    (∀ v : Nat, readStats mem now lsid t = some v →
      (∀ (t2 : String) (c2 : Nat),
        ∃ v2, readStats (bumpStats mem now lsid t2 c2) now lsid t = some v2 ∧ v ≤ v2) ∧
      (∀ (t2 : String) (probe : Bool),
        readStats (hasType mem now lsid t2 probe).2 now lsid t = some v)) ∧
    (∀ (metaOf : String → String → Option Meta) (idsOf : String → List String)
       (listOf : String → String → Option ListRec) (type catalogId : String)
       (ex : Extras) (uid : String),
      parseCatalogId catalogId = some (uid, lsid) →
      (type = "movie" ∨ type = "series") →
      (catalogStep metaOf idsOf listOf false type catalogId ex mem now).1.metas ≠ [] →
      readStats (catalogStep metaOf idsOf listOf false type catalogId ex mem now).2
          now lsid type =
        some (max ((readStats mem now lsid type).getD 0)
          (catalogStep metaOf idsOf listOf false type catalogId ex mem now).1.metas.length)) := by
  intro mem now lsid t
  refine ⟨fun c => readStats_bumpStats mem now lsid t c, ?_, ?_⟩
  · intro v hv
    exact ⟨fun t2 c2 => readStats_after_bump mem now lsid t t2 c2 v hv,
           fun t2 probe => readStats_after_hasType mem now lsid t t2 probe v hv⟩
  · intro metaOf idsOf listOf type catalogId ex uid hp htype hne
    have htv : (type = "movie" ∨ type = "series") := htype
    unfold catalogStep at hne ⊢
    simp only [Bool.false_eq_true, if_false, if_neg (not_not_intro htv), hp] at hne ⊢
    by_cases hz :
      (handleCatalogCore metaOf (idsOf lsid) (catalogGhostList listOf catalogId) type ex).length > 0
    · simp only [hz, if_pos] at hne ⊢
      exact readStats_bumpStats mem now lsid type _
    · exfalso
      apply hne
      have : (handleCatalogCore metaOf (idsOf lsid)
          (catalogGhostList listOf catalogId) type ex).length = 0 := by omega
      exact List.length_eq_zero.mp this

/-- A one-entry stats cache: movie counter 3, stored at time 0. -/
def c7Mem : CacheMap TypeStats := [("stats:ls1", ⟨some 3, none⟩, 43200000)]

/-- C7 (witness): the update law and monotonicity at a concrete stats state. -/
theorem C7_stats_monotonic_witness :
    readStats (bumpStats c7Mem 5 "ls1" "movie" 2) 5 "ls1" "movie" = some (max 3 2) ∧
    (∃ v2, readStats (bumpStats c7Mem 5 "ls1" "series" 9) 5 "ls1" "movie" = some v2 ∧ 3 ≤ v2) ∧
    readStats (hasType c7Mem 5 "ls1" "series" true).2 5 "ls1" "movie" = some 3 := by
  have h := C7_stats_monotonic c7Mem 5 "ls1" "movie"
  refine ⟨?_, ?_, ?_⟩
  · have := h.1 2
    rw [show (readStats c7Mem 5 "ls1" "movie").getD 0 = 3 from by decide] at this
    exact this
  · exact ((h.2.1 3 (by decide)).1 "series" 9)
  · exact ((h.2.1 3 (by decide)).2 "series" true)

/-! ### C8: the catalog path never errors -/

/-- C8: the catalog handler always responds with status 200 and a `metas`
body — an injected internal exception is caught and converted to
`{metas: []}`, an unrecognized catalog id or invalid type yields `{metas: []}`
with status 200 — and across the server's routes, the add-list mutation is the
only endpoint whose handler sets a non-200 status. -/
theorem C8_catalog_never_errors :
    ∀ (metaOf : String → String → Option Meta) (idsOf : String → List String)
      (listOf : String → String → Option ListRec) (stats : CacheMap TypeStats) (now : Nat),
    (∀ (type catalogId : String) (ex : Extras) (oops : Bool),
      (catalogStep metaOf idsOf listOf oops type catalogId ex stats now).1.status = 200) ∧
    (∀ (type catalogId : String) (ex : Extras),
      (catalogStep metaOf idsOf listOf true type catalogId ex stats now).1 = ⟨200, []⟩) ∧
    (∀ (type catalogId : String) (ex : Extras) (oops : Bool),
      parseCatalogId catalogId = none →
      (catalogStep metaOf idsOf listOf oops type catalogId ex stats now).1 = ⟨200, []⟩) ∧
    (∀ req : AppReq, appStatus metaOf idsOf listOf stats now req ≠ 200 →
      isListAddReq req = true) := by
  intro metaOf idsOf listOf stats now
  have hstatus : ∀ (type catalogId : String) (ex : Extras) (oops : Bool),
      (catalogStep metaOf idsOf listOf oops type catalogId ex stats now).1.status = 200 := by
    intro type catalogId ex oops
    cases oops
    · unfold catalogStep
      simp only [Bool.false_eq_true, if_false]
      by_cases htype : type = "movie" ∨ type = "series"
      · simp only [if_neg (not_not_intro htype)]
        cases hp : parseCatalogId catalogId with
        | none => rfl
        | some pr => rfl
      · simp only [if_pos htype]
    · rfl
  refine ⟨hstatus, ?_, ?_, ?_⟩
  · intro type catalogId ex
    rfl
  · intro type catalogId ex oops hp
    cases oops
    · unfold catalogStep
      simp only [Bool.false_eq_true, if_false, hp]
      by_cases htype : type = "movie" ∨ type = "series"
      · simp only [if_neg (not_not_intro htype)]
      · simp only [if_pos htype]
    · rfl
  · intro req hne
    cases req with
    | manifest => exact absurd rfl hne
    | catalog type catalogId ex oops => exact absurd (hstatus type catalogId ex oops) hne
    | listsGet => exact absurd rfl hne
    | listsAdd src oops => rfl
    | listsPatch => exact absurd rfl hne
    | listsDelete => exact absurd rfl hne

/-- C8 (witness): concrete instances — an injected exception, an unrecognized
catalog id, and the only non-200 route being the add-list mutation. -/
theorem C8_catalog_never_errors_witness :
    (catalogStep c1Env (fun _ => []) (fun _ _ => none) true "movie"
        "imdb-default-ls1-movies" Extras.none0 [] 0).1 = ⟨200, []⟩ ∧
    (catalogStep c1Env (fun _ => []) (fun _ _ => none) false "movie"
        "not-a-catalog" Extras.none0 [] 0).1 = ⟨200, []⟩ ∧
    appStatus c1Env (fun _ => []) (fun _ _ => none) [] 0 (AppReq.listsAdd none false) = 400 ∧
    isListAddReq (AppReq.listsAdd none false) = true := by
  have h := C8_catalog_never_errors c1Env (fun _ => []) (fun _ _ => none) [] 0
  refine ⟨h.2.1 "movie" "imdb-default-ls1-movies" Extras.none0,
          h.2.2.1 "movie" "not-a-catalog" Extras.none0 false (by decide),
          by decide,
          h.2.2.2 (AppReq.listsAdd none false) (by decide)⟩

/-! ### C9: `getMeta` error handling and caching -/

/-- C9 (counterexample): a null result is not cached, so the claimed "single
external call per (bucket, id) pair, served from cache afterwards" fails: with
an upstream that answers non-success, two successive `getMeta('movie', tt)`
calls both perform an external call (the counter reaches 2, not 1), and both
return null. -/
theorem C9_counterexample :
    (getMetaM (fun _ _ => FetchRes.httpErr) 0 ⟨[], 0⟩ "movie" "tt0000001").1 = none ∧
    (getMetaM (fun _ _ => FetchRes.httpErr) 0 ⟨[], 0⟩ "movie" "tt0000001").2.calls = 1 ∧
    (getMetaM (fun _ _ => FetchRes.httpErr) 0
        (getMetaM (fun _ _ => FetchRes.httpErr) 0 ⟨[], 0⟩ "movie" "tt0000001").2
        "movie" "tt0000001").2.calls = 2 := by
  refine ⟨by decide, by decide, by decide⟩

/-- C9 (amended): `getMeta` returns a record or null and never throws — any
thrown body (network error, parse failure) is caught and converted to null —
and a successful lookup performs one external call and caches the record, so
a subsequent call within the TTL window is served from the cache, returning
the same record with no further external call. (A null result is not cached:
see the counterexample.) -/
theorem C9_amended_getMeta :
    (∀ (fetch : String → String → FetchRes) (now : Nat) (st : MetaFetchState)
       (type tt : String),
      (getMetaTry fetch now st type tt).1 = Except.error () →
      (getMetaM fetch now st type tt).1 = none) ∧
    (∀ (fetch : String → String → FetchRes) (now : Nat) (st : MetaFetchState)
       (type tt : String) (m : Meta),
      fetch type tt = FetchRes.got m →
      (getCacheM st.mem ("meta:" ++ type ++ ":" ++ tt) now).1 = none →
      (getMetaM fetch now st type tt).1 = some m ∧
      (getMetaM fetch now st type tt).2.calls = st.calls + 1 ∧
      (∀ now2 : Nat, now2 ≤ now + TTL_SEC * 1000 →
        (getMetaM fetch now2 (getMetaM fetch now st type tt).2 type tt).1 = some m ∧
        (getMetaM fetch now2 (getMetaM fetch now st type tt).2 type tt).2.calls =
          (getMetaM fetch now st type tt).2.calls)) := by
  constructor
  · intro fetch now st type tt h
    unfold getMetaM
    cases hq : getMetaTry fetch now st type tt with
    | mk e st2 =>
      rw [hq] at h
      cases e with
      | ok r => simp at h
      | error u => rfl
  · intro fetch now st type tt m hfetch hmiss
    have h1 : getMetaM fetch now st type tt =
        (some m, ⟨setCacheM (getCacheM st.mem ("meta:" ++ type ++ ":" ++ tt) now).2
          ("meta:" ++ type ++ ":" ++ tt) m TTL_SEC now, st.calls + 1⟩) := by
      unfold getMetaM getMetaTry
      simp only [hmiss, hfetch]
    refine ⟨by rw [h1], by rw [h1], ?_⟩
    intro now2 hle
    rw [h1]
    have h2 : getMetaM fetch now2
        (⟨setCacheM (getCacheM st.mem ("meta:" ++ type ++ ":" ++ tt) now).2
          ("meta:" ++ type ++ ":" ++ tt) m TTL_SEC now, st.calls + 1⟩ : MetaFetchState)
        type tt =
        (some m, ⟨setCacheM (getCacheM st.mem ("meta:" ++ type ++ ":" ++ tt) now).2
          ("meta:" ++ type ++ ":" ++ tt) m TTL_SEC now, st.calls + 1⟩) := by
      unfold getMetaM getMetaTry
      simp only [getCacheM_setCacheM_get _ _ _ _ _ _ hle]
    rw [h2]
    exact ⟨rfl, rfl⟩

/-- A fetch environment resolving one movie id. -/
def c9Fetch : String → String → FetchRes := fun bucket tt =>
  if bucket = "movie" ∧ tt = "tt0000001" then FetchRes.got c4a else FetchRes.httpErr

/-- C9 (witness): the never-throws conversion and the successful-call caching
law at concrete inputs. -/
theorem C9_amended_getMeta_witness :
    (getMetaM (fun _ _ => FetchRes.netThrow) 0 ⟨[], 0⟩ "movie" "tt0000005").1 = none ∧
    (getMetaM c9Fetch 0 ⟨[], 0⟩ "movie" "tt0000001").1 = some c4a ∧
    (getMetaM c9Fetch 0 ⟨[], 0⟩ "movie" "tt0000001").2.calls = 0 + 1 ∧
    (getMetaM c9Fetch 1000 (getMetaM c9Fetch 0 ⟨[], 0⟩ "movie" "tt0000001").2
        "movie" "tt0000001").1 = some c4a ∧
    (getMetaM c9Fetch 1000 (getMetaM c9Fetch 0 ⟨[], 0⟩ "movie" "tt0000001").2
        "movie" "tt0000001").2.calls =
      (getMetaM c9Fetch 0 ⟨[], 0⟩ "movie" "tt0000001").2.calls := by
  have h1 := C9_amended_getMeta.1 (fun _ _ => FetchRes.netThrow) 0 ⟨[], 0⟩ "movie" "tt0000005"
    (by rfl)
  have h2 := C9_amended_getMeta.2 c9Fetch 0 ⟨[], 0⟩ "movie" "tt0000001" c4a (by decide) (by decide)
  exact ⟨h1, h2.1, h2.2.1, (h2.2.2 1000 (by decide)).1, (h2.2.2 1000 (by decide)).2⟩
